/-
  Verification of the opening-classification engine of this repository
  (`src/eco_fen_bot.js`).

  The JavaScript source is shallowly embedded below.  Pure string and list
  manipulation is translated function by function.  The external npm
  dependency `chess.js` (not part of this repository) is modelled as an
  abstract oracle `ChessLib`: a board state is identified with the history of
  successfully applied move tokens, and the oracle decides which tokens apply
  and which canonical FEN each history denotes.  JavaScript numbers used by
  the engine are small exact integers and the orderless threshold, modelled
  as Int/Nat and Rat respectively.  File-system access in the catalogue
  loader is modelled by handing the loader an `Option` of already-parsed
  records (`none` = missing file or JSON parse failure).
-/
import Mathlib

namespace EcoFenBot

/-! ## JavaScript string primitives -/

/-- Characters matched by the JavaScript regex class `\s` (ASCII subset;
the engine only meets ASCII input). -/
def jsIsSpace (c : Char) : Bool :=
  c == ' ' || c == '\t' || c == '\n' || c == '\r' ||
    c == Char.ofNat 11 || c == Char.ofNat 12

/-- Character range test. -/
def charBetween (lo hi c : Char) : Bool :=
  lo.toNat ≤ c.toNat && c.toNat ≤ hi.toNat

/-- JavaScript word character `[A-Za-z0-9_]`, used for `\b` boundaries. -/
def jsIsWord (c : Char) : Bool :=
  charBetween 'a' 'z' c || charBetween 'A' 'Z' c || charBetween '0' '9' c || c == '_'

def isDigitChar (c : Char) : Bool := charBetween '0' '9' c

theorem length_dropWhile_le (p : Char → Bool) (l : List Char) :
    (l.dropWhile p).length ≤ l.length := by
  induction l with
  | nil => simp
  | cons a l ih =>
    rw [List.dropWhile]
    split
    · exact Nat.le_trans ih (Nat.le_succ _)
    · exact Nat.le_refl _

/-- JavaScript `String.prototype.trim` on a character list. -/
def jsTrimList (cs : List Char) : List Char :=
  ((cs.dropWhile jsIsSpace).reverse.dropWhile jsIsSpace).reverse

/-- JavaScript `String.prototype.trim`. -/
def jsTrim (s : String) : String := String.mk (jsTrimList s.data)

/-- JavaScript `s.split(sep)` for a single-character separator: keeps empty
pieces, and the empty string yields one empty piece. -/
def splitOnChar (sep : Char) : List Char → List (List Char)
  | [] => [[]]
  | c :: rest =>
    if c == sep then [] :: splitOnChar sep rest
    else
      match splitOnChar sep rest with
      | [] => [[c]]
      | g :: gs => (c :: g) :: gs

/-- `replace(/\s+/g, ' ')`: collapse every whitespace run to one space.
The flag records whether we are inside a whitespace run. -/
def collapseWsAux : Bool → List Char → List Char
  | _, [] => []
  | inRun, c :: rest =>
    if jsIsSpace c then
      if inRun then collapseWsAux true rest
      else ' ' :: collapseWsAux true rest
    else c :: collapseWsAux false rest

def collapseWs (cs : List Char) : List Char := collapseWsAux false cs

/-- JavaScript `s.toLowerCase()` (ASCII). -/
def jsToLower (s : String) : String := String.mk (s.data.map Char.toLower)

/-! ## PGN move tokenizer (`tokenizePgnMoves`) -/

/-- Test for a PGN tag-pair header line, regex `/^\s*\[.*\]\s*$/`
(`.` never meets a newline because the input is a single line). -/
def isHeaderLine (cs : List Char) : Bool :=
  let t := jsTrimList cs
  decide (2 ≤ t.length) && t.head? == some '[' && t.getLast? == some ']'

/-- Game-result markers skipped by the tokenizer. -/
def isOutcome (t : List Char) : Bool :=
  t == "1-0".data || t == "0-1".data || t == "1/2-1/2".data || t == "*".data

/-- Strip a leading move number, regex `^\d+\.{1,3}` (at least one digit
followed by one to three dots; further dots stay). -/
def stripMoveNumber (cs : List Char) : List Char :=
  let ds := cs.takeWhile isDigitChar
  if ds.isEmpty then cs
  else
    let rest := cs.drop ds.length
    let dots := (rest.takeWhile (· == '.')).length
    if dots = 0 then cs
    else rest.drop (min dots 3)

/-- The `while (... && !rawTokens[i].includes(close)) i++; i++;` skip used
for `\x7b...\x7d` comments and `(...)` variations: drop tokens up to and
including the first one containing the closing character. -/
def skipUntilContaining (close : Char) : List (List Char) → List (List Char)
  | [] => []
  | t :: rest => if t.contains close then rest else skipUntilContaining close rest

theorem skipUntilContaining_length_le (close : Char) :
    ∀ l : List (List Char), (skipUntilContaining close l).length ≤ l.length := by
  intro l
  induction l with
  | nil => simp [skipUntilContaining]
  | cons t rest ih =>
    simp only [skipUntilContaining]
    split
    · simp
    · exact Nat.le_trans ih (Nat.le_succ _)

theorem skipUntilContaining_cons_le (close : Char) (t : List Char)
    (rest : List (List Char)) :
    (skipUntilContaining close (t :: rest)).length ≤ rest.length := by
  simp only [skipUntilContaining]
  split
  · exact Nat.le_refl _
  · exact skipUntilContaining_length_le _ _

/-- The main token-cleaning loop of `tokenizePgnMoves`.  The loop advances
through the raw tokens; the structural fuel is bounded below by the list
length at every call (each step drops at least one raw token), so the
`fuel = 0` clause is never taken from `tokenLoop`. -/
def tokenLoopF : Nat → List (List Char) → List (List Char)
  | 0, _ => []
  | _, [] => []
  | fuel + 1, t :: rest =>
    if t.isEmpty then tokenLoopF fuel rest
    else if t.head? == some '\x7b' then
      tokenLoopF fuel (skipUntilContaining '\x7d' (t :: rest))
    else if t.head? == some '(' then
      tokenLoopF fuel (skipUntilContaining ')' (t :: rest))
    else if isOutcome t then tokenLoopF fuel rest
    else
      let cleaned := stripMoveNumber t
      if cleaned.isEmpty then
        -- `cleaned` emptied out: consume the following raw token instead
        match rest with
        | [] => []
        | nt :: rest2 =>
          let c2 := jsTrimList (stripMoveNumber nt)
          if c2.isEmpty then tokenLoopF fuel rest2 else c2 :: tokenLoopF fuel rest2
      else
        let c := jsTrimList cleaned
        if c.isEmpty then tokenLoopF fuel rest else c :: tokenLoopF fuel rest

def tokenLoop (l : List (List Char)) : List (List Char) := tokenLoopF l.length l

/-- `text.split('\n\n')` (two-character separator, leftmost non-overlapping). -/
def splitOnNlNl : List Char → List (List Char)
  | [] => [[]]
  | '\n' :: '\n' :: rest => [] :: splitOnNlNl rest
  | c :: rest =>
    match splitOnNlNl rest with
    | [] => [[c]]
    | g :: gs => (c :: g) :: gs

/-- `text.indexOf('\n\n') !== -1`. -/
def hasNlNl : List Char → Bool
  | [] => false
  | '\n' :: '\n' :: _ => true
  | _ :: rest => hasNlNl rest

/-- `tokenizePgnMoves` from the source: strip tag-pair header lines, join the
body, fall back to the text after the first blank line when nothing is left,
normalize whitespace and run the token-cleaning loop. -/
def tokenizePgnMoves (pgnText : String) : List String :=
  let text := pgnText.data
  if text.isEmpty then []
  else
    let lines := splitOnChar '\n' (text.filter (fun c => !(c == '\r')))
    let bodyLines := lines.filter (fun l => !isHeaderLine l)
    let movesPart0 := jsTrimList (List.intercalate [' '] bodyLines)
    let movesPart1 :=
      if movesPart0.isEmpty && hasNlNl text then ((splitOnNlNl text).getD 1 [])
      else movesPart0
    let movesPart := jsTrimList (collapseWs movesPart1)
    if movesPart.isEmpty then []
    else (tokenLoop (splitOnChar ' ' movesPart)).map String.mk

/-! ## Sequence strings and specificity -/

/-- `normalizeMoveNumbersLine`: regex `(\d+)\.\s*` becomes `$1. `, then
whitespace is collapsed and the ends trimmed. -/
def normMoveNumsScanF : Nat → List Char → List Char
  | 0, _ => []
  | _, [] => []
  | fuel + 1, c :: rest =>
    if isDigitChar c then
      let ds := c :: rest.takeWhile isDigitChar
      let after := rest.drop (rest.takeWhile isDigitChar).length
      match after with
      | '.' :: tail =>
        ds ++ '.' :: ' ' :: normMoveNumsScanF fuel (tail.dropWhile jsIsSpace)
      | _ => ds ++ normMoveNumsScanF fuel after
    else c :: normMoveNumsScanF fuel rest

/-- The regex scan consumes at least one character per step, so fuel equal
to the length is always sufficient. -/
def normMoveNumsScan (l : List Char) : List Char := normMoveNumsScanF l.length l

def normalizeMoveNumbersLine (s : String) : String :=
  jsTrim (String.mk (collapseWs (normMoveNumsScan s.data)))

/-- `buildSequenceString`: prefix every White move with its move number and
re-normalize. -/
def buildSequenceString (seqTokens : List String) : String :=
  let parts := seqTokens.enum.map (fun p =>
    if p.1 % 2 = 0 then toString (p.1 / 2 + 1) ++ ". " ++ p.2 else p.2)
  normalizeMoveNumbersLine (String.intercalate " " parts)

/-- `specificityScore`: `50·count(':') + 5·count(',') + length`. -/
def specificityScore (name : String) : Int :=
  if name.data.isEmpty then 0
  else
    let colonCount := (name.data.filter (· == ':')).length
    let commaCount := (name.data.filter (· == ',')).length
    (colonCount : Int) * 50 + (commaCount : Int) * 5 + (name.data.length : Int)

/-! ## The popular-first-move table -/

def POPULAR_FIRST_MOVES : List (String × List String) := [
  ("e4", ["King\x27s Pawn Game", "Open Game", "King\x27s Gambit",
          "Caro-Kann Defense", "French Defense", "Sicilian Defense"]),
  ("d4", ["Queen\x27s Pawn Game", "Queen\x27s Gambit", "Indian Defense"]),
  ("c4", ["English Opening"]),
  ("nf3", ["Reti Opening", "King\x27s Knight Opening"]),
  ("f4", ["Bird\x27s Opening"]),
  ("g3", ["King\x27s Fianchetto (or King\x27s Indian Attack)"]),
  ("b3", ["Larsen\x27s Opening"]),
  ("a4", ["Ware Opening"])]

/-- `POPULAR_FIRST_MOVES[key]` object lookup. -/
def popularLookup (k : String) : Option (List String) := POPULAR_FIRST_MOVES.lookup k

/-! ## Path Builder (`buildOpeningPathFromRaw`) and its regexes -/

/-- `replace(/\([^)]*\)/g, ' ')`: each `(`, together with everything up to the
first following `)`, becomes one space; a `(` with no later `)` stays. -/
def removeParensF : Nat → List Char → List Char
  | 0, _ => []
  | _, [] => []
  | fuel + 1, c :: rest =>
    if c == '(' then
      match rest.findIdx? (· == ')') with
      | some i => ' ' :: removeParensF fuel (rest.drop (i + 1))
      | none => c :: removeParensF fuel rest
    else c :: removeParensF fuel rest

def removeParens (l : List Char) : List Char := removeParensF l.length l

/-- Character class `[A-Za-z0-9NBRQK+=#\/\-\.\*]` of the move-annotation
regex (the piece letters are already inside `A-Z`). -/
def annClassChar (c : Char) : Bool :=
  charBetween 'A' 'Z' c || charBetween 'a' 'z' c || charBetween '0' '9' c ||
    c == '+' || c == '=' || c == '#' || c == '/' || c == '-' || c == '.' || c == '*'

/-- Trailing `\b` check between the last consumed character and the next. -/
def boundaryAfter (last : Char) (next : Option Char) : Bool :=
  match next with
  | none => jsIsWord last
  | some n => jsIsWord last != jsIsWord n

/-- Greedy `[...]+\b` with backtracking: longest class run whose end sits on a
word boundary; returns the number of characters consumed. -/
def annClsDesc (r3 : List Char) : Nat → Option Nat
  | 0 => none
  | m + 1 =>
    match r3.get? m with
    | none => annClsDesc r3 m
    | some last =>
      if boundaryAfter last ((r3.drop (m + 1)).head?) then some (m + 1)
      else annClsDesc r3 m

def annTryCls (r3 : List Char) : Option Nat :=
  annClsDesc r3 (r3.takeWhile annClassChar).length

/-- Greedy `\.+\s*[...]+\b` with backtracking over the dot count. -/
def annTryDots (r1 : List Char) : Nat → Option Nat
  | 0 => none
  | k + 1 =>
    let r2 := r1.drop (k + 1)
    let ws := r2.takeWhile jsIsSpace
    match annTryCls (r2.drop ws.length) with
    | some m => some ((k + 1) + ws.length + m)
    | none => annTryDots r1 k

/-- Length of a match of `\d+\.+\s*[A-Za-z0-9NBRQK+=#\/\-\.\*]+\b` starting
at the head of `cs` (the leading `\b` is checked by the caller). -/
def annMatchLen (cs : List Char) : Option Nat :=
  let ds := cs.takeWhile isDigitChar
  if ds.isEmpty then none
  else
    let r1 := cs.drop ds.length
    match annTryDots r1 (r1.takeWhile (· == '.')).length with
    | some n => some (ds.length + n)
    | none => none

/-- Global replace of the move-annotation regex by a single space.  The flag
tracks whether the previous character of the original string is a word
character (for the leading `\b`; the pattern starts with a digit). -/
def annReplaceAuxF : Nat → Bool → List Char → List Char
  | 0, _, _ => []
  | _, _, [] => []
  | fuel + 1, prevWord, c :: rest =>
    if !prevWord && isDigitChar c then
      match annMatchLen (c :: rest) with
      | some n =>
        ' ' :: annReplaceAuxF fuel (jsIsWord ((c :: rest).getD (n - 1) ' '))
          (rest.drop (n - 1))
      | none => c :: annReplaceAuxF fuel (jsIsWord c) rest
    else c :: annReplaceAuxF fuel (jsIsWord c) rest

def annReplace (cs : List Char) : List Char := annReplaceAuxF cs.length false cs

/-- `[NBRQK]` under the `i` flag. -/
def isPieceChar (c : Char) : Bool :=
  c == 'N' || c == 'B' || c == 'R' || c == 'Q' || c == 'K' ||
    c == 'n' || c == 'b' || c == 'r' || c == 'q' || c == 'k'

/-- `[a-h]` under the `i` flag. -/
def isFileChar (c : Char) : Bool := charBetween 'a' 'h' c || charBetween 'A' 'H' c

def isRankChar (c : Char) : Bool := charBetween '1' '8' c

def isOhChar (c : Char) : Bool := c == 'O' || c == 'o'

/-- Alternative `[NBRQK]?[a-h][1-8]` with the optional piece present. -/
def mtTryA3 : List Char → Bool
  | p :: f :: r :: _ => isPieceChar p && isFileChar f && isRankChar r
  | _ => false

/-- Alternative `[NBRQK]?[a-h][1-8]` with the optional piece absent. -/
def mtTryA2 : List Char → Bool
  | f :: r :: _ => isFileChar f && isRankChar r
  | _ => false

def mtTryB : List Char → Bool
  | a :: b :: c :: d :: e :: _ =>
    isOhChar a && b == '-' && isOhChar c && d == '-' && isOhChar e
  | _ => false

def mtTryC : List Char → Bool
  | a :: b :: c :: _ => isOhChar a && b == '-' && isOhChar c
  | _ => false

/-- Alternative `[NBRQK]x?[a-h][1-8]` with the `x` present (without it the
text was already covered by `mtTryA3`). -/
def mtTryD4 : List Char → Bool
  | p :: x :: f :: r :: _ =>
    isPieceChar p && (x == 'x' || x == 'X') && isFileChar f && isRankChar r
  | _ => false

def mtBoundaryOk (cs : List Char) (n : Nat) : Bool :=
  match cs.get? (n - 1) with
  | none => false
  | some last => boundaryAfter last (cs.get? n)

/-- Length of the first `MOVE_TOKEN_RE` match starting at the head of `cs`:
the regex alternatives are tried in source order with their internal
backtracking, each checked against the trailing `\b`. -/
def mtMatchLen (cs : List Char) : Option Nat :=
  (([(mtTryA3 cs, 3), (mtTryA2 cs, 2), (mtTryB cs, 5), (mtTryC cs, 3),
     (mtTryD4 cs, 4), (mtTryA3 cs, 3)].filterMap
    (fun p => if p.1 && mtBoundaryOk cs p.2 then some p.2 else none))).head?

/-- `replace(MOVE_TOKEN_RE, ' ')`: the regex has no `g` flag, so only the
first match is replaced. -/
def mtReplaceFirstAux (prevWord : Bool) : List Char → List Char
  | [] => []
  | c :: rest =>
    if !prevWord then
      match mtMatchLen (c :: rest) with
      | some n => ' ' :: rest.drop (n - 1)
      | none => c :: mtReplaceFirstAux (jsIsWord c) rest
    else c :: mtReplaceFirstAux (jsIsWord c) rest

def mtReplaceFirst (cs : List Char) : List Char := mtReplaceFirstAux false cs

/-- `replace(/\.\.\./g, ' ')`. -/
def removeEllipses : List Char → List Char
  | [] => []
  | '.' :: '.' :: '.' :: rest => ' ' :: removeEllipses rest
  | c :: rest => c :: removeEllipses rest

/-- `split(',').map(p => p.trim()).filter(Boolean)`. -/
def commaParts (cs : List Char) : List String :=
  ((splitOnChar ',' cs).map (fun p => String.mk (jsTrimList p))).filter
    (fun s => !(s == ""))

/-- `if (p && !path.includes(p)) path.push(p)`. -/
def pushUnique (path : List String) (p : String) : List String :=
  if !(p == "") && !path.contains p then path ++ [p] else path

/-- `buildOpeningPathFromRaw` from the source.  Note the JavaScript
`s.split(':', 2)`: with more than one colon only the text between the first
two colons survives as the after-colon part. -/
def buildOpeningPathFromRaw (rawName : String) (firstToken : Option String) :
    List String :=
  let s := jsTrimList rawName.data
  let path0 : List String :=
    if s.contains ':' then
      let pieces := splitOnChar ':' s
      let before := jsTrimList (pieces.getD 0 [])
      let a1 := removeParens (pieces.getD 1 [])
      let a2 := annReplace a1
      let a3 := mtReplaceFirst a2
      let after := jsTrimList (collapseWs (removeEllipses a3))
      let p1 := (commaParts after).foldl pushUnique []
      (commaParts before).foldl pushUnique p1
    else
      (commaParts s).foldl pushUnique []
  let path1 : List String :=
    match firstToken with
    | none => path0
    | some ft =>
      if ft == "" then path0
      else
        match popularLookup (jsToLower ft) with
        | some (canon :: _) =>
          if path0.contains canon then path0 else path0 ++ [canon]
        | _ => path0
  path1.foldl pushUnique []

/-! ## The chess.js oracle

`chess.js` is an external npm dependency, not code of this repository.  A
board is identified with the history of successfully applied move tokens
(chess.js is deterministic and a failed `move` does not mutate the board),
and the library is abstracted into the oracle below.  `canonFen` returns the
first four FEN fields of the position after a history, exactly what
`canonicalFenFromChessInstance` computes; `loadFen` models
`new Chess(fen)` followed by that canonicalization, `none` when the
constructor throws. -/

abbrev Token := String
abbrev Fen := String

structure ChessLib where
  sanOk : List Token → Token → Bool
  coordOk : List Token → String → String → Option Char → Bool
  canonFen : List Token → Fen
  loadFen : String → Option Fen

/-- `[qrbn]` under the `i` flag. -/
def isPromChar (c : Char) : Bool :=
  c == 'q' || c == 'r' || c == 'b' || c == 'n' ||
    c == 'Q' || c == 'R' || c == 'B' || c == 'N'

/-- The coordinate-notation fallback regex
`^([a-h][1-8])([a-h][1-8])([qrbn])?$/i`, with the subsequent lowercasing of
the captured pieces. -/
def uciParse (tok : String) : Option (String × String × Option Char) :=
  match tok.data with
  | [a, b, c, d] =>
    if isFileChar a && isRankChar b && isFileChar c && isRankChar d then
      some (String.mk [a.toLower, b.toLower], String.mk [c.toLower, d.toLower], none)
    else none
  | [a, b, c, d, p] =>
    if isFileChar a && isRankChar b && isFileChar c && isRankChar d && isPromChar p
    then
      some (String.mk [a.toLower, b.toLower], String.mk [c.toLower, d.toLower],
        some p.toLower)
    else none
  | _ => none

/-- One replay step: `board.move(tok, \x7b sloppy: true \x7d)` first, then the
coordinate-notation fallback. -/
def tryMoveStep (lib : ChessLib) (hist : List Token) (tok : Token) : Bool :=
  if lib.sanOk hist tok then true
  else
    match uciParse tok with
    | some (f, t, p) => lib.coordOk hist f t p
    | none => false

/-- `computeFensFromMovesString` inner loop: canonical FEN after every
successfully applied token, stopping at the first failure. -/
def computeFensAux (lib : ChessLib) (hist : List Token) : List Token → List Fen
  | [] => []
  | t :: rest =>
    if tryMoveStep lib hist t then
      lib.canonFen (hist ++ [t]) :: computeFensAux lib (hist ++ [t]) rest
    else []

def computeFensFromMovesString (lib : ChessLib) (moves : String) : List Fen :=
  computeFensAux lib [] (tokenizePgnMoves moves)

/-- `canonicalizeFenString` from the source. -/
def canonicalizeFenString (lib : ChessLib) (fen : Option String) : Option Fen :=
  match fen with
  | none => none
  | some f0 =>
    if f0 == "" then none
    else
      let f := jsTrim f0
      match lib.loadFen f with
      | some canon =>
        if ((splitOnChar ' ' f.data).getD 0 []).isEmpty then none else some canon
      | none =>
        let parts := splitOnChar ' ' f.data
        if 4 ≤ parts.length then
          some (String.intercalate " " ((parts.take 4).map String.mk))
        else none

/-! ## Catalogue records, entries and the position index -/

/-- One already-parsed JSON record handed to the loader.  `fs.existsSync`,
`fs.readFileSync` and `JSON.parse` are external; the loader below receives
`none` for a missing or malformed file. -/
structure RawRecord where
  name : Option String
  opening : Option String
  eco : Option String
  moves : Option String
  fen : Option String
  position : Option String
  FEN : Option String
deriving Repr, DecidableEq

/-- JavaScript `a || b` on nullable strings: the empty string is falsy. -/
def jsOr (a b : Option String) : Option String :=
  match a with
  | some s => if s == "" then b else some s
  | none => b

/-- JavaScript `s || null`. -/
def jsOrNull (a : Option String) : Option String := jsOr a none

structure OpeningEntry where
  _key : Option String
  name : Option String
  opening : Option String
  eco : Option String
  moves : Option String
  _moves_norm : Option String
  _fen : Option Fen
  _fens_list : List Fen
  _fen_to_ply : List (Fen × Nat)
deriving Repr, DecidableEq

/-- `if (!(fen in ent._fen_to_ply)) ent._fen_to_ply[fen] = ply`
(first-reached ply wins; insertion order preserved). -/
def ftpInsert (m : List (Fen × Nat)) (fen : Fen) (ply : Nat) : List (Fen × Nat) :=
  if (m.lookup fen).isSome then m else m ++ [(fen, ply)]

/-- Build one `OpeningEntry` from a raw record, as the loader body does.
`k` is the JSON object key (`none` when the data was an array and the key a
number). -/
def mkOpeningEntry (lib : ChessLib) (k : Option String) (v : RawRecord) :
    OpeningEntry :=
  let key := match k with
    | some s => some s
    | none => jsOr v.eco (jsOrNull v.name)
  let movesNorm := match v.moves with
    | some m =>
      if jsTrim m == "" then none
      else some (normalizeMoveNumbersLine (jsTrim (String.mk (collapseWs m.data))))
    | none => none
  let fenCandidate := jsOr (jsOr (jsOr v.fen v.position) v.FEN)
    (match k with | some s => some s | none => none)
  let fens := match movesNorm with
    | some mn => computeFensFromMovesString lib mn
    | none => []
  { _key := key, name := v.name, opening := v.opening, eco := v.eco,
    moves := v.moves, _moves_norm := movesNorm,
    _fen := canonicalizeFenString lib fenCandidate,
    _fens_list := fens,
    _fen_to_ply := fens.enum.foldl (fun m p => ftpInsert m p.2 (p.1 + 1)) [] }

/-- An element of a `fenIndex` bucket; `entId` is the position of the entry
in the openings list and stands for JavaScript object identity. -/
structure IndexRef where
  entId : Nat
  ent : OpeningEntry
  ply : Option Nat
deriving Repr, DecidableEq

abbrev FenIndex := List (Fen × List IndexRef)

/-- `FEN_TO_ENTRIES.get(canon) || []`. -/
def indexGet (idx : FenIndex) (c : Fen) : List IndexRef :=
  match idx.lookup c with
  | some a => a
  | none => []

/-- `Map.set` keeping first-insertion key order. -/
def indexSet : FenIndex → Fen → List IndexRef → FenIndex
  | [], c, arr => [(c, arr)]
  | (k, v) :: rest, c, arr =>
    if k == c then (c, arr) :: rest else (k, v) :: indexSet rest c arr

/-- `addToIndex` from the loader: skip falsy keys, deduplicate on the
(entry, ply) pair, append. -/
def addToIndex (idx : FenIndex) (canonOpt : Option Fen) (entId : Nat)
    (ent : OpeningEntry) (ply : Option Nat) : FenIndex :=
  match canonOpt with
  | none => idx
  | some c =>
    if c == "" then idx
    else
      let arr := indexGet idx c
      if arr.any (fun r => r.entId == entId && r.ply == ply) then idx
      else indexSet idx c (arr ++ [{ entId := entId, ent := ent, ply := ply }])

structure Catalogue where
  openings : List OpeningEntry
  fenIndex : FenIndex

/-- Index contribution of one entry: its own declared position with ply
`null`, then every key of its replayed ply map. -/
def buildIndexForEntry (idx : FenIndex) (entId : Nat) (ent : OpeningEntry) :
    FenIndex :=
  ent._fen_to_ply.foldl (fun a p => addToIndex a (some p.1) entId ent (some p.2))
    (addToIndex idx ent._fen entId ent none)

/-- `loadOpeningsFromEco`: a missing or malformed catalogue file degrades to
an empty openings list and an empty index (the source also logs a warning,
a side effect outside this embedding). -/
def loadOpeningsFromEco (lib : ChessLib)
    (data : Option (List (Option String × RawRecord))) : Catalogue :=
  match data with
  | none => { openings := [], fenIndex := [] }
  | some items =>
    let openings := items.map (fun p => mkOpeningEntry lib p.1 p.2)
    { openings := openings,
      fenIndex := openings.enum.foldl (fun idx p => buildIndexForEntry idx p.1 p.2) [] }

/-! ## Token helpers -/

def movesTokensFromNorm (movesNorm : Option String) : List Token :=
  match movesNorm with
  | none => []
  | some s => if s == "" then [] else tokenizePgnMoves s

def isTokenPrefix (pre full : List Token) : Bool :=
  if pre.isEmpty then true
  else if full.length < pre.length then false
  else (pre.zip full).all (fun p => p.1 == p.2)

/-- `entryMatchesBySetFraction`: the fraction of the entry tokens occurring
anywhere in the played token set reaches the threshold.  The JavaScript
number arithmetic is exact on these values and modelled over `Rat`. -/
def entryMatchesBySetFraction (entTokens playedTokens : List Token)
    (thresholdFraction : Rat) : Bool :=
  if entTokens.isEmpty then false
  else if playedTokens.isEmpty then false
  else
    let found := (entTokens.filter (fun t => playedTokens.contains t)).length
    -- `thresholdFraction ≤ found / entTokens.length` over ℚ, cross-multiplied
    -- (the entry token count is positive here); see
    -- `entryMatchesBySetFraction_eq_div` below
    decide (thresholdFraction.num * entTokens.length ≤
      (found : Int) * thresholdFraction.den)

/-- The cross-multiplied comparison inside `entryMatchesBySetFraction` is the
source's `frac >= threshold` over exact rationals. -/
theorem entryMatchesBySetFraction_eq_div (entTokens playedTokens : List Token)
    (thr : Rat) :
    entryMatchesBySetFraction entTokens playedTokens thr =
      (!entTokens.isEmpty && !playedTokens.isEmpty &&
        decide (thr ≤
          (((entTokens.filter (fun t => playedTokens.contains t)).length : Rat) /
            (entTokens.length : Rat)))) := by
  by_cases he : entTokens.isEmpty
  · simp [entryMatchesBySetFraction, he]
  · by_cases hp : playedTokens.isEmpty
    · simp [entryMatchesBySetFraction, he, hp]
    · have hlen : 0 < entTokens.length := by
        cases entTokens with
        | nil => simp at he
        | cons a l => simp
      have hlenQ : (0 : Rat) < (entTokens.length : Rat) := by exact_mod_cast hlen
      have hdenQ : (0 : Rat) < (thr.den : Rat) := by exact_mod_cast thr.den_pos
      have hthr : thr = ((thr.num : Rat)) / ((thr.den : Rat)) :=
        (Rat.num_div_den thr).symm
      have hdiv : (thr ≤
          (((entTokens.filter (fun t => playedTokens.contains t)).length : Rat) /
            (entTokens.length : Rat))) ↔
          thr.num * entTokens.length ≤
            ((entTokens.filter (fun t => playedTokens.contains t)).length : Int) *
              thr.den := by
        constructor
        · intro h
          rw [hthr, div_le_div_iff hdenQ hlenQ] at h
          exact_mod_cast h
        · intro h
          rw [hthr, div_le_div_iff hdenQ hlenQ]
          exact_mod_cast h
      have hd : decide (thr.num * entTokens.length ≤
            ((entTokens.filter (fun t => playedTokens.contains t)).length : Int) *
              thr.den) =
          decide (thr ≤
            (((entTokens.filter (fun t => playedTokens.contains t)).length : Rat) /
              (entTokens.length : Rat))) :=
        decide_eq_decide.mpr hdiv.symm
      simp only [entryMatchesBySetFraction, he, hp, Bool.false_eq_true,
        if_false, hd, Bool.not_false, Bool.true_and]

/-- `findMatchedTokensPositions`: for every entry token, the 1-based indices
of its occurrences among the played tokens. -/
def findMatchedTokensPositions (entTokens playedTokens : List Token) :
    List (Token × List Nat) :=
  entTokens.map (fun tok =>
    (tok, playedTokens.enum.filterMap
      (fun p => if p.2 == tok then some (p.1 + 1) else none)))

/-- One replayed ply record of `analyzeByFen` (`fenPerPly` element). -/
structure FenRec where
  ply : Nat
  san : Token
  fen : Fen
  played_tokens : List Token
deriving Repr, DecidableEq

/-- `movesForPly`. -/
def movesForPly (fenPerPly : List FenRec) (ply : Nat) : List Token :=
  if fenPerPly.isEmpty then []
  else if ply < 1 then []
  else
    match fenPerPly.get? (ply - 1) with
    | none => []
    | some r => r.played_tokens

/-! ## The scoring-key comparator

The JavaScript sort comparator walks the two key arrays index by index up to
the longer length, reading missing entries as `0`, and decides at the first
difference (`return bv - av`, i.e. descending).  `cmpKey A B` is that walk
expressed over `Ordering` (`.gt` means A ranks strictly better). -/

def keyD (A : List Int) (i : Nat) : Int := (A.get? i).getD 0

def cmpKeyFrom (A B : List Int) (i : Nat) : Nat → Ordering
  | 0 => .eq
  | fuel + 1 =>
    if keyD A i < keyD B i then .lt
    else if keyD B i < keyD A i then .gt
    else cmpKeyFrom A B (i + 1) fuel

def cmpKey (A B : List Int) : Ordering :=
  cmpKeyFrom A B 0 (max A.length B.length)

theorem keyD_zero_of_ge (A : List Int) (i : Nat) (h : A.length ≤ i) :
    keyD A i = 0 := by
  unfold keyD
  rw [List.get?_eq_none.mpr h]
  rfl

theorem cmpKeyFrom_eq_of_ge (A B : List Int) (i : Nat) (fuel : Nat)
    (hA : A.length ≤ i) (hB : B.length ≤ i) :
    cmpKeyFrom A B i fuel = .eq := by
  induction fuel generalizing i with
  | zero => rfl
  | succ n ih =>
    simp only [cmpKeyFrom, keyD_zero_of_ge A i hA, keyD_zero_of_ge B i hB,
      lt_irrefl, if_false]
    exact ih (i + 1) (Nat.le_succ_of_le hA) (Nat.le_succ_of_le hB)

/-- The comparison result does not depend on the fuel once the fuel covers
both lists. -/
theorem cmpKeyFrom_fuel_irrel (A B : List Int) :
    ∀ n m i, A.length ≤ i + n → B.length ≤ i + n →
      A.length ≤ i + m → B.length ≤ i + m →
      cmpKeyFrom A B i n = cmpKeyFrom A B i m := by
  intro n
  induction n with
  | zero =>
    intro m i hA hB _ _
    simp only [Nat.add_zero] at hA hB
    exact (cmpKeyFrom_eq_of_ge A B i m hA hB).symm
  | succ n ih =>
    intro m i hAn hBn hAm hBm
    match m with
    | 0 =>
      simp only [Nat.add_zero] at hAm hBm
      exact cmpKeyFrom_eq_of_ge A B i (n + 1) hAm hBm
    | m + 1 =>
      simp only [cmpKeyFrom]
      split
      · rfl
      · split
        · rfl
        · exact ih m (i + 1) (by omega) (by omega) (by omega) (by omega)

theorem cmpKey_eq_cmpKeyFrom (A B : List Int) (n : Nat)
    (hA : A.length ≤ n) (hB : B.length ≤ n) :
    cmpKey A B = cmpKeyFrom A B 0 n := by
  exact cmpKeyFrom_fuel_irrel A B (max A.length B.length) n 0
    (by omega) (by omega) (by omega) (by omega)

theorem cmpKeyFrom_swap (A B : List Int) :
    ∀ fuel i, cmpKeyFrom B A i fuel = (cmpKeyFrom A B i fuel).swap := by
  intro fuel
  induction fuel with
  | zero => intro i; rfl
  | succ n ih =>
    intro i
    simp only [cmpKeyFrom]
    split_ifs <;> (try (exfalso; omega)) <;> (try rfl) <;> exact ih (i + 1)

theorem cmpKey_swap (A B : List Int) : cmpKey B A = (cmpKey A B).swap := by
  unfold cmpKey
  rw [Nat.max_comm]
  exact cmpKeyFrom_swap A B _ 0

theorem cmpKeyFrom_trans (A B C : List Int) :
    ∀ fuel i, cmpKeyFrom A B i fuel ≠ .lt → cmpKeyFrom B C i fuel ≠ .lt →
      cmpKeyFrom A C i fuel ≠ .lt := by
  intro fuel
  induction fuel with
  | zero => intro i _ _; simp [cmpKeyFrom]
  | succ n ih =>
    intro i hab hbc
    simp only [cmpKeyFrom] at hab hbc ⊢
    by_cases h1 : keyD A i < keyD B i
    · simp [h1] at hab
    · by_cases h2 : keyD B i < keyD C i
      · simp [h2] at hbc
      · by_cases h3 : keyD B i < keyD A i
        · rw [if_neg (by omega), if_pos (by omega)]
          exact fun h => Ordering.noConfusion h
        · by_cases h4 : keyD C i < keyD B i
          · rw [if_neg (by omega), if_pos (by omega)]
            exact fun h => Ordering.noConfusion h
          · have hAB : keyD A i = keyD B i := by omega
            have hBC : keyD B i = keyD C i := by omega
            rw [if_neg (by omega), if_neg (by omega)]
            rw [if_neg h1, if_neg h3] at hab
            rw [if_neg h2, if_neg h4] at hbc
            exact ih (i + 1) hab hbc

theorem cmpKey_refl (A : List Int) : cmpKey A A = .eq := by
  unfold cmpKey
  generalize 0 = i
  generalize max A.length A.length = fuel
  induction fuel generalizing i with
  | zero => rfl
  | succ n ih => simp only [cmpKeyFrom, lt_irrefl, if_false]; exact ih (i + 1)

/-! ## Candidate scoring (`bestEntryForFen`) -/

/-- `((x || y || z) || '').toString().trim()`. -/
def jsToStrTrim (o : Option String) : String := jsTrim (o.getD "")

/-- The inline `commonLen` closure: index of the first mismatch, else the
shorter length. -/
def commonPrefixLenT : List Token → List Token → Nat
  | a :: as, b :: bs => if a == b then commonPrefixLenT as bs + 1 else 0
  | _, _ => 0

/-- Options object of `bestEntryForFen`; `setThreshold` is `none` when the
caller did not pass a number (the source then defaults to `1.0`). -/
structure BestOpts where
  preferSetMatch : Bool
  setThreshold : Option Rat
deriving Repr, DecidableEq

/-- The ranking tuple: with `preferSetMatch` the set-match criterion moves to
the front, otherwise it comes last. -/
def scoreKey (preferSetMatch : Bool)
    (setMatched samePly reachesCanon commonLen entryFullyMatchedByPlay
      movesLen spec : Int) : List Int :=
  if preferSetMatch then
    [setMatched, samePly, reachesCanon, commonLen, entryFullyMatchedByPlay,
      -movesLen, spec]
  else
    [samePly, reachesCanon, commonLen, entryFullyMatchedByPlay, -movesLen, spec,
      setMatched]

/-- The scored record kept for each surviving candidate. -/
structure Scored where
  key : List Int
  entId : Nat
  ent : OpeningEntry
  entPly : Option Nat
  rawName : String
  entTokens : List Token
  setMatched : Int
deriving Repr, DecidableEq

/-- Candidate loop body of `bestEntryForFen`: `none` when the prefix check
disqualifies the candidate (`continue`), otherwise the scored record. -/
def scoreCandidate (opts : BestOpts) (canon : Fen)
    (playedTokensAtPly fullPlayedTokens : List Token) (ref : IndexRef) :
    Option Scored :=
  let ent := ref.ent
  let rawName := jsToStrTrim (jsOr (jsOr ent.name ent.opening) ent._key)
  let entTokens := movesTokensFromNorm ent._moves_norm
  let playedLen := playedTokensAtPly.length
  if (entTokens.zip playedTokensAtPly).any (fun p => !(p.1 == p.2)) then none
  else
    let samePly : Int :=
      if ent._fen_to_ply.lookup canon == some playedLen then 1 else 0
    let reachesCanon : Int :=
      if (ent._fen_to_ply.lookup canon).isSome then 1 else 0
    let commonLen : Int := commonPrefixLenT entTokens playedTokensAtPly
    let entryFullyMatchedByPlay : Int :=
      if entTokens.length ≤ playedLen then 1 else 0
    let movesLen : Int := entTokens.length
    let spec := specificityScore rawName
    let setMatched : Int :=
      if entryMatchesBySetFraction entTokens fullPlayedTokens
        (opts.setThreshold.getD 1) then 1 else 0
    let key := scoreKey opts.preferSetMatch setMatched samePly reachesCanon
      commonLen entryFullyMatchedByPlay movesLen spec
    some { key := key, entId := ref.entId, ent := ent, entPly := ref.ply,
           rawName := rawName, entTokens := entTokens, setMatched := setMatched }

def scoredList (cat : Catalogue) (canon : Fen)
    (playedTokensAtPly fullPlayedTokens : List Token) (opts : BestOpts) :
    List Scored :=
  (indexGet cat.fenIndex canon).filterMap
    (scoreCandidate opts canon playedTokensAtPly fullPlayedTokens)

/-- The sort order used on scored candidates: the JavaScript comparator
`bv - av` at the first differing index, so `a` sorts before `b` exactly when
`a`'s key is not lexicographically below `b`'s. -/
def scoredLe (a b : Scored) : Bool := !(cmpKey a.key b.key == Ordering.lt)

theorem scoredLe_iff (a b : Scored) :
    scoredLe a b = true ↔ cmpKey a.key b.key ≠ Ordering.lt := by
  unfold scoredLe
  rcases h : cmpKey a.key b.key with _ | _ | _ <;> decide

theorem scoredLe_trans (a b c : Scored) (h1 : scoredLe a b) (h2 : scoredLe b c) :
    scoredLe a c = true := by
  rw [scoredLe_iff] at h1 h2 ⊢
  have hA : a.key.length ≤ max (max a.key.length b.key.length) c.key.length :=
    le_trans (le_max_left _ _) (le_max_left _ _)
  have hB : b.key.length ≤ max (max a.key.length b.key.length) c.key.length :=
    le_trans (le_max_right _ _) (le_max_left _ _)
  have hC : c.key.length ≤ max (max a.key.length b.key.length) c.key.length :=
    le_max_right _ _
  rw [cmpKey_eq_cmpKeyFrom a.key b.key _ hA hB] at h1
  rw [cmpKey_eq_cmpKeyFrom b.key c.key _ hB hC] at h2
  rw [cmpKey_eq_cmpKeyFrom a.key c.key _ hA hC]
  exact cmpKeyFrom_trans _ _ _ _ 0 h1 h2

theorem scoredLe_total (a b : Scored) : (scoredLe a b || scoredLe b a) = true := by
  rw [Bool.or_eq_true]
  unfold scoredLe
  rcases h : cmpKey a.key b.key with _ | _ | _
  · right
    rw [cmpKey_swap, h]
    decide
  · left; decide
  · left; decide

/-- The sort order as a decidable relation (for the stable sort below). -/
def sLE (a b : Scored) : Prop := scoredLe a b = true

instance : DecidableRel sLE := fun a b => instDecidableEqBool (scoredLe a b) true

instance : IsTotal Scored sLE :=
  ⟨fun a b => by
    have h := scoredLe_total a b
    rcases Bool.or_eq_true_iff.mp h with h1 | h1
    · exact Or.inl h1
    · exact Or.inr h1⟩

instance : IsTrans Scored sLE :=
  ⟨fun a b c h1 h2 => scoredLe_trans a b c h1 h2⟩

/-- `bestEntryForFen`: retrieve the candidates indexed at the canonical key,
score the survivors of the prefix check, sort by the comparator and return
the first element.  `Array.prototype.sort` is a stable sort under a
consistent comparator; a stable sort's output is unique, so the (stable)
insertion sort used here produces exactly the JavaScript result. -/
def bestEntryForFen (cat : Catalogue) (canon : Fen)
    (playedTokensAtPly fullPlayedTokens : List Token) (opts : BestOpts) :
    Option Scored :=
  let candRefs := indexGet cat.fenIndex canon
  if candRefs.isEmpty then none
  else
    let scored := scoredList cat canon playedTokensAtPly fullPlayedTokens opts
    if scored.isEmpty then none
    else (List.insertionSort sLE scored).head?

theorem scoredLe_refl (a : Scored) : scoredLe a a = true := by
  rw [scoredLe_iff, cmpKey_refl]
  exact fun h => Ordering.noConfusion h

/-- Whatever `bestEntryForFen` returns is one of the scored candidates and
ranks at least as high as every scored candidate. -/
theorem bestEntryForFen_max (cat : Catalogue) (canon : Fen)
    (played whole : List Token) (opts : BestOpts) (res : Scored)
    (h : bestEntryForFen cat canon played whole opts = some res) :
    res ∈ scoredList cat canon played whole opts ∧
      ∀ c ∈ scoredList cat canon played whole opts, scoredLe res c = true := by
  unfold bestEntryForFen at h
  simp only at h
  split at h
  · exact absurd h (by simp)
  · split at h
    · exact absurd h (by simp)
    · set l := scoredList cat canon played whole opts with hl
      have hperm : (List.insertionSort sLE l).Perm l :=
        List.perm_insertionSort sLE l
      have hsorted : (List.insertionSort sLE l).Sorted sLE :=
        List.sorted_insertionSort sLE l
      match hms : List.insertionSort sLE l with
      | [] => rw [hms] at h; exact absurd h (by simp)
      | r :: t =>
        rw [hms] at h hperm hsorted
        simp only [List.head?] at h
        cases h
        constructor
        · exact hperm.mem_iff.mp (List.mem_cons_self _ _)
        · intro c hc
          rcases List.mem_cons.mp (hperm.mem_iff.mpr hc) with rfl | hct
          · exact scoredLe_refl _
          · exact List.rel_of_pairwise_cons hsorted hct

/-! ## Sequence-only fallback matching -/

/-- JavaScript falsiness of a nullable string. -/
def jsStrFalsy (o : Option String) : Bool :=
  match o with
  | none => true
  | some s => s == ""

/-- `(ent.name || ent.opening || ent._key || '').toString().trim()`. -/
def entRawName (ent : OpeningEntry) : String :=
  jsToStrTrim (jsOr (jsOr ent.name ent.opening) ent._key)

/-- `arr[0] || null` on a string list. -/
def jsHeadOrNull (l : List String) : Option String :=
  match l.head? with
  | some s => if s == "" then none else some s
  | none => none

/-- Insertion-ordered counter map (`rawCounts`). -/
def assocBump : List (String × Nat) → String → List (String × Nat)
  | [], k => [(k, 1)]
  | (k0, n) :: rest, k =>
    if k0 == k then (k0, n + 1) :: rest else (k0, n) :: assocBump rest k

/-- Insertion-ordered grouping map (`rawToEntries`). -/
def assocPush : List (String × List OpeningEntry) → String → OpeningEntry →
    List (String × List OpeningEntry)
  | [], k, e => [(k, [e])]
  | (k0, l) :: rest, k, e =>
    if k0 == k then (k0, l ++ [e]) :: rest else (k0, l) :: assocPush rest k e

/-- `rawKey(r) = [specificityScore(r), rawCounts.get(r) || 0]`. -/
def rawKeyPair (counts : List (String × Nat)) (r : String) : Int × Nat :=
  (specificityScore r, (counts.lookup r).getD 0)

/-- The best-raw selection loop shared verbatim by `analyzeBySequence` and
`bestSequenceMatchForTokens`: walk the keys in insertion order and keep the
strictly better one (higher specificity, then higher count). -/
def pickBestRaw (counts : List (String × Nat)) : Option String :=
  counts.foldl (fun best p =>
    match best with
    | none => some p.1
    | some b =>
      let a := rawKeyPair counts b
      let bk := rawKeyPair counts p.1
      if decide (a.1 < bk.1) || (bk.1 == a.1 && decide (a.2 < bk.2)) then some p.1
      else some b) none

/-- `bestSequenceMatchForTokens`: entries whose token list extends the played
token sequence, resolved to the most specific raw name. -/
def bestSequenceMatchForTokens (cat : Catalogue) (seqTokens : List Token) :
    Option OpeningEntry :=
  if seqTokens.isEmpty then none
  else
    let candidates := cat.openings.filter (fun ent =>
      if jsStrFalsy ent._moves_norm then false
      else
        let entTokens := movesTokensFromNorm ent._moves_norm
        if entTokens.isEmpty then false
        else if entTokens.length < seqTokens.length then false
        else (seqTokens.zip entTokens).all (fun p => p.1 == p.2))
    if candidates.isEmpty then none
    else
      let counts := candidates.foldl (fun m e => assocBump m (entRawName e)) []
      let r2e := candidates.foldl (fun m e => assocPush m (entRawName e) e) []
      match pickBestRaw counts with
      | none => none
      | some bestRaw =>
        match r2e.lookup bestRaw with
        | some arr => arr.head?
        | none => candidates.head?

/-! ## Analysis results -/

structure OpeningOut where
  eco : Option String
  name : Option String
deriving Repr, DecidableEq

structure PerPly where
  ply : Nat
  sequence : String
  sequence_tokens : List Token
  opening : Option String
  eco : Option String
  opening_path : List String
  matched_fen : Fen
deriving Repr, DecidableEq

structure ChosenInfo where
  _key : Option String
  name : Option String
  eco : Option String
deriving Repr, DecidableEq

structure Level where
  ply : Nat
  fen : Fen
  chosen : Option ChosenInfo
  chosen_raw : Option String
  eco : Option String
  moves_leading : List Token
  matched_by_set : Bool
  matched_tokens : List Token
  matched_tokens_positions : List (Token × List Nat)
deriving Repr, DecidableEq

/-- The analysis result object.  Fields a JavaScript return object omits are
`none`/`[]` here (`max_plies` is `none` exactly on the returns that omit
it); `book_moves` is `none` where the source produces `[]` or `null`. -/
structure AnalysisOut where
  error : Option String
  opening_path : List String
  opening : Option OpeningOut
  book_moves : Option String
  matched_fen : Option Fen
  plies_analyzed : Nat
  max_plies : Option Nat
  per_level : List Level
  per_ply : List PerPly
  ply_progression : List String
deriving Repr, DecidableEq

/-! ## `analyzeBySequence` -/

/-- Candidate-narrowing loop of `analyzeBySequence`: returns the final
candidate set, the last non-empty snapshot and the number of plies that kept
at least one candidate. -/
def seqScan (seqTokens : List Token) (cands snapshot : List OpeningEntry)
    (done : Nat) : List Token → List OpeningEntry × List OpeningEntry × Nat
  | [] => (cands, snapshot, done)
  | t :: rest =>
    let seq2 := seqTokens ++ [t]
    let newCands := cands.filter
      (fun o => isTokenPrefix seq2 (movesTokensFromNorm o._moves_norm))
    if newCands.isEmpty then (cands, snapshot, done)
    else seqScan seq2 newCands newCands (done + 1) rest

/-- `analyzeBySequence` (the caller assigns `matched_fen`, `per_ply` and
`ply_progression` afterwards, so they start empty here). -/
def analyzeBySequence (cat : Catalogue) (pgnText : String) (maxPlies : Nat) :
    AnalysisOut :=
  let tokens := tokenizePgnMoves pgnText
  if tokens.isEmpty then
    { error := some "No moves parsed from PGN", opening_path := [],
      opening := none, book_moves := none, matched_fen := none,
      plies_analyzed := 0, max_plies := none, per_level := [], per_ply := [],
      ply_progression := [] }
  else
    let candidates0 := cat.openings.filter (fun o => !jsStrFalsy o._moves_norm)
    let res := seqScan [] candidates0 candidates0 0 (tokens.take maxPlies)
    let working := if !res.2.1.isEmpty then res.2.1 else res.1
    if working.isEmpty then
      { error := none, opening_path := [], opening := none, book_moves := none,
        matched_fen := none, plies_analyzed := res.2.2,
        max_plies := some maxPlies, per_level := [], per_ply := [],
        ply_progression := [] }
    else
      let counts := working.foldl (fun m e => assocBump m (entRawName e)) []
      let r2e := working.foldl (fun m e => assocPush m (entRawName e) e) []
      let bestRaw := (pickBestRaw counts).getD ""
      let openingPath := buildOpeningPathFromRaw bestRaw (jsHeadOrNull tokens)
      let exampleEnt := match r2e.lookup bestRaw with
        | some arr => arr.head?
        | none => working.head?
      let ecoE : Option String := match exampleEnt with
        | some e => e.eco
        | none => none
      let bm : Option String := match exampleEnt with
        | some e => jsOrNull e._moves_norm
        | none => none
      { error := none, opening_path := openingPath,
        opening := some { eco := ecoE, name := jsHeadOrNull openingPath },
        book_moves := bm,
        matched_fen := none, plies_analyzed := res.2.2,
        max_plies := some maxPlies, per_level := [], per_ply := [],
        ply_progression := [] }

/-! ## `analyzeByFen` -/

structure AnalyzeOpts where
  orderless_matching : Bool
  orderless_threshold : Option Rat
  prefer_set_matches : Bool
deriving Repr, DecidableEq

/-- The replay loop of `analyzeByFen`: apply tokens in order up to the ply
limit, stop at the first token that neither parses as a (sloppy) algebraic
move nor as a legal coordinate move, and record ply, token, canonical FEN
and the played prefix for each success. -/
def replayAux (lib : ChessLib) (maxPlies : Nat) (hist : List Token)
    (plyIndex : Nat) : List Token → List FenRec
  | [] => []
  | t :: rest =>
    if plyIndex < maxPlies then
      if tryMoveStep lib hist t then
        { ply := plyIndex + 1, san := t, fen := lib.canonFen (hist ++ [t]),
          played_tokens := hist ++ [t] }
          :: replayAux lib maxPlies (hist ++ [t]) (plyIndex + 1) rest
      else []
    else []

def replayRecords (lib : ChessLib) (tokens : List Token) (maxPlies : Nat) :
    List FenRec :=
  replayAux lib maxPlies [] 0 tokens

/-- One line of the human-readable `ply_progression`. -/
def progressionLine (seqStr : String) (name eco : Option String) : String :=
  seqStr ++ " → " ++ (jsOr name (some "unknown")).getD "unknown" ++
    (match jsOrNull eco with
     | some e => " (" ++ e ++ ")"
     | none => "")

/-- Per-ply progressive classification of one replayed record: canonical-key
match first, then the sequence-only fallback, then the popular-first-move
label for a single-ply game. -/
def buildPerPly (cat : Catalogue) (tokens whole : List Token)
    (bopts : BestOpts) (rec : FenRec) : PerPly :=
  let seqTokensAtPly := rec.played_tokens
  let seqStr := buildSequenceString seqTokensAtPly
  match bestEntryForFen cat rec.fen seqTokensAtPly whole bopts with
  | some best =>
    let chosenPath := buildOpeningPathFromRaw best.rawName (jsHeadOrNull tokens)
    { ply := rec.ply, sequence := seqStr, sequence_tokens := seqTokensAtPly,
      opening := jsOr (jsHeadOrNull chosenPath)
        (jsOr (jsOr best.ent.name best.ent.opening) best.ent._key),
      eco := jsOrNull best.ent.eco, opening_path := chosenPath,
      matched_fen := rec.fen }
  | none =>
    match bestSequenceMatchForTokens cat seqTokensAtPly with
    | some ent =>
      let chosenPath := buildOpeningPathFromRaw (entRawName ent) (jsHeadOrNull tokens)
      { ply := rec.ply, sequence := seqStr, sequence_tokens := seqTokensAtPly,
        opening := jsOr (jsHeadOrNull chosenPath)
          (jsOr (jsOr ent.name ent.opening) ent._key),
        eco := jsOrNull ent.eco, opening_path := chosenPath,
        matched_fen := rec.fen }
    | none =>
      if seqTokensAtPly.length = 1 then
        match popularLookup (jsToLower (seqTokensAtPly.headD "")) with
        | some (n0 :: _) =>
          { ply := rec.ply, sequence := seqStr,
            sequence_tokens := seqTokensAtPly, opening := some n0, eco := none,
            opening_path := [n0], matched_fen := rec.fen }
        | _ =>
          { ply := rec.ply, sequence := seqStr,
            sequence_tokens := seqTokensAtPly, opening := none, eco := none,
            opening_path := [], matched_fen := rec.fen }
      else
        { ply := rec.ply, sequence := seqStr, sequence_tokens := seqTokensAtPly,
          opening := none, eco := none, opening_path := [],
          matched_fen := rec.fen }

/-- Deepest-to-shallowest scan for the primary match: the first replayed ply
(from the end) whose canonical key has candidates and a surviving best
entry. -/
def findAnchor (cat : Catalogue) (whole : List Token) (bopts : BestOpts) :
    List FenRec → Option (FenRec × Scored)
  | [] => none
  | rec :: rest =>
    if (indexGet cat.fenIndex rec.fen).isEmpty then
      findAnchor cat whole bopts rest
    else
      match bestEntryForFen cat rec.fen rec.played_tokens whole bopts with
      | none => findAnchor cat whole bopts rest
      | some choice => some (rec, choice)

/-- One step of the walk-up loop (ply `p`), updating the collected raw-name
path (with its deduplication set) and the `per_level` list. -/
def walkStep (cat : Catalogue) (whole : List Token) (bopts : BestOpts)
    (thr : Rat) (fenPerPly : List FenRec) (st : List String × List Level)
    (p : Nat) : List String × List Level :=
  match fenPerPly.get? (p - 1) with
  | none => st
  | some rec =>
    if rec.fen == "" then st
    else
      let canonAtPly := rec.fen
      let tokensAtPly := rec.played_tokens
      match bestEntryForFen cat canonAtPly tokensAtPly whole bopts with
      | some best =>
        let ent := best.ent
        -- `best.entTokens || movesTokensFromNorm(...)`: an array is always
        -- truthy in JavaScript, so this is just `best.entTokens`
        let ci : ChosenInfo :=
          { _key := ent._key, name := jsOr (jsOr ent.name ent.opening) ent._key,
            eco := jsOrNull ent.eco }
        let level : Level :=
          { ply := p, fen := canonAtPly, chosen := some ci,
            chosen_raw := some best.rawName, eco := jsOrNull ent.eco,
            moves_leading := movesForPly fenPerPly p,
            matched_by_set := entryMatchesBySetFraction best.entTokens whole thr,
            matched_tokens := best.entTokens.take (min best.entTokens.length 64),
            matched_tokens_positions :=
              findMatchedTokensPositions best.entTokens whole }
        let pathList2 :=
          if !(best.rawName == "") && !st.1.contains best.rawName then
            st.1 ++ [best.rawName]
          else st.1
        (pathList2, st.2 ++ [level])
      | none =>
        match indexGet cat.fenIndex canonAtPly with
        | [] =>
          let level : Level :=
            { ply := p, fen := canonAtPly, chosen := none, chosen_raw := none,
              eco := none, moves_leading := tokensAtPly,
              matched_by_set := false, matched_tokens := [],
              matched_tokens_positions := [] }
          (st.1, st.2 ++ [level])
        | altRef :: _ =>
          let alt := altRef.ent
          let altName := jsToStrTrim (jsOr (jsOr alt.name alt.opening) alt._key)
          let ci : ChosenInfo :=
            { _key := alt._key, name := jsOr (jsOr alt.name alt.opening) alt._key,
              eco := jsOrNull alt.eco }
          let level : Level :=
            { ply := p, fen := canonAtPly, chosen := some ci,
              chosen_raw := some altName, eco := jsOrNull alt.eco,
              moves_leading := movesForPly fenPerPly p,
              matched_by_set := false, matched_tokens := [],
              matched_tokens_positions := [] }
          let pathList2 :=
            if !(altName == "") && !st.1.contains altName then
              st.1 ++ [altName]
            else st.1
          (pathList2, st.2 ++ [level])

/-- The walk-up loop from `matchedPly` down to ply 1. -/
def walkUp (cat : Catalogue) (whole : List Token) (bopts : BestOpts)
    (thr : Rat) (fenPerPly : List FenRec) (matchedPly : Nat) :
    List String × List Level :=
  (((List.range matchedPly).reverse).map (· + 1)).foldl
    (walkStep cat whole bopts thr fenPerPly) ([], [])

/-- `analyzeByFen` from the source.  The `debug` flag only copies values
already computed (`fenPerPly` and the chosen key) into the result and is
omitted; `opts.orderless_matching` is part of the options object but, as in
the source, never read below. -/
def analyzeByFen (lib : ChessLib) (cat : Catalogue) (pgnText : String)
    (maxPlies : Nat) (requireFenOnly : Bool) (opts : AnalyzeOpts) :
    AnalysisOut :=
  let thr : Rat := opts.orderless_threshold.getD 1
  let bopts : BestOpts :=
    { preferSetMatch := opts.prefer_set_matches, setThreshold := some thr }
  let tokens := tokenizePgnMoves pgnText
  if tokens.isEmpty then
    { error := some "No moves parsed from PGN", opening_path := [],
      opening := none, book_moves := none, matched_fen := none,
      plies_analyzed := 0, max_plies := none, per_level := [], per_ply := [],
      ply_progression := [] }
  else
    let fenPerPly := replayRecords lib tokens maxPlies
    if fenPerPly.isEmpty then
      if requireFenOnly then
        { error := some "no_fens_parsed", opening_path := [], opening := none,
          book_moves := none, matched_fen := none, plies_analyzed := 0,
          max_plies := some maxPlies, per_level := [], per_ply := [],
          ply_progression := [] }
      else
        { analyzeBySequence cat pgnText maxPlies with matched_fen := none }
    else
      let wholeGameTokens := (fenPerPly.map (·.san)).filter (fun s => !(s == ""))
      let per_ply := fenPerPly.map (buildPerPly cat tokens wholeGameTokens bopts)
      let ply_progression :=
        per_ply.map (fun pp => progressionLine pp.sequence pp.opening pp.eco)
      match findAnchor cat wholeGameTokens bopts fenPerPly.reverse with
      | some (record, entryChoice) =>
        let chosen := entryChoice.ent
        let matchedPly := match entryChoice.entPly with
          | some p => if p = 0 then record.ply else p
          | none => record.ply
        let wu := walkUp cat wholeGameTokens bopts thr fenPerPly matchedPly
        let openingPath :=
          if !wu.1.isEmpty then
            wu.1.foldl (fun flat raw =>
              (buildOpeningPathFromRaw raw (jsHeadOrNull tokens)).foldl
                (fun fl pn => if fl.contains pn then fl else fl ++ [pn]) flat) []
          else buildOpeningPathFromRaw entryChoice.rawName (jsHeadOrNull tokens)
        { error := none, opening_path := openingPath,
          opening := some { eco := chosen.eco, name := jsHeadOrNull openingPath },
          book_moves := jsOr chosen._moves_norm (jsOrNull chosen.moves),
          matched_fen := some record.fen, plies_analyzed := matchedPly,
          max_plies := some maxPlies, per_level := wu.2, per_ply := per_ply,
          ply_progression := ply_progression }
      | none =>
        if requireFenOnly then
          { error := some "no_fen_match", opening_path := [], opening := none,
            book_moves := none, matched_fen := none,
            plies_analyzed := fenPerPly.length, max_plies := some maxPlies,
            per_level := [], per_ply := per_ply,
            ply_progression := ply_progression }
        else
          { analyzeBySequence cat pgnText maxPlies with
            matched_fen := none, per_ply := per_ply,
            ply_progression := ply_progression }

/-! ## General lemmas about the replay loop -/

theorem replayAux_props (lib : ChessLib) (maxPlies : Nat) :
    ∀ (tokens hist : List Token) (plyIndex : Nat),
      (∀ i, i < (replayAux lib maxPlies hist plyIndex tokens).length →
        ((replayAux lib maxPlies hist plyIndex tokens).get? i).map (·.san) =
            tokens.get? i ∧
        ((replayAux lib maxPlies hist plyIndex tokens).get? i).map
            (·.played_tokens) = some (hist ++ tokens.take (i + 1)) ∧
        tryMoveStep lib (hist ++ tokens.take i) (tokens.getD i "") = true) ∧
      (replayAux lib maxPlies hist plyIndex tokens).length ≤
        min tokens.length (maxPlies - plyIndex) ∧
      ((replayAux lib maxPlies hist plyIndex tokens).length <
          min tokens.length (maxPlies - plyIndex) →
        tryMoveStep lib
          (hist ++ tokens.take (replayAux lib maxPlies hist plyIndex tokens).length)
          (tokens.getD (replayAux lib maxPlies hist plyIndex tokens).length "") =
          false) := by
  intro tokens
  induction tokens with
  | nil =>
    intro hist plyIndex
    exact ⟨by simp [replayAux], by simp [replayAux], by simp [replayAux]⟩
  | cons t rest ih =>
    intro hist plyIndex
    by_cases hmp : plyIndex < maxPlies
    · by_cases hok : tryMoveStep lib hist t
      · have heq : replayAux lib maxPlies hist plyIndex (t :: rest) =
            { ply := plyIndex + 1, san := t, fen := lib.canonFen (hist ++ [t]),
              played_tokens := hist ++ [t] }
              :: replayAux lib maxPlies (hist ++ [t]) (plyIndex + 1) rest := by
          simp [replayAux, hmp, hok]
        obtain ⟨ih1, ih2, ih3⟩ := ih (hist ++ [t]) (plyIndex + 1)
        rw [heq]
        refine ⟨?_, ?_, ?_⟩
        · intro i hi
          match i with
          | 0 => simpa using hok
          | i + 1 =>
            simp only [List.length_cons] at hi
            obtain ⟨a, b, c⟩ := ih1 i (by omega)
            refine ⟨by simpa using a, ?_, ?_⟩
            · simp only [List.get?_cons_succ, List.take_succ_cons, b]
              simp
            · simp only [List.take_succ_cons, List.getD_cons_succ]
              simpa using c
        · simp only [List.length_cons]
          omega
        · intro hlt
          simp only [List.length_cons] at hlt ⊢
          have := ih3 (by omega)
          simp only [List.take_succ_cons, List.getD_cons_succ]
          simpa using this
      · have heq : replayAux lib maxPlies hist plyIndex (t :: rest) = [] := by
          simp [replayAux, hmp, hok]
        rw [heq]
        refine ⟨by simp, by simp, ?_⟩
        intro _
        simpa using hok
    · have heq : replayAux lib maxPlies hist plyIndex (t :: rest) = [] := by
        simp [replayAux, hmp]
      rw [heq]
      refine ⟨by simp, by simp, ?_⟩
      intro hlt
      simp at hlt
      omega

/-- Specialization to `replayRecords`: the records carry exactly the longest
applicable prefix of the tokens (up to the ply limit), each record holds the
token and played prefix at its ply, and the loop stops exactly at the first
token that fails to apply. -/
theorem replayRecords_props (lib : ChessLib) (tokens : List Token)
    (maxPlies : Nat) :
    (∀ i, i < (replayRecords lib tokens maxPlies).length →
      ((replayRecords lib tokens maxPlies).get? i).map (·.san) = tokens.get? i ∧
      ((replayRecords lib tokens maxPlies).get? i).map (·.played_tokens) =
        some (tokens.take (i + 1)) ∧
      tryMoveStep lib (tokens.take i) (tokens.getD i "") = true) ∧
    (replayRecords lib tokens maxPlies).length ≤ min tokens.length maxPlies ∧
    ((replayRecords lib tokens maxPlies).length < min tokens.length maxPlies →
      tryMoveStep lib (tokens.take (replayRecords lib tokens maxPlies).length)
        (tokens.getD (replayRecords lib tokens maxPlies).length "") = false) := by
  have h := replayAux_props lib maxPlies tokens [] 0
  simpa [replayRecords] using h

/-! ## General lemmas about classification against an empty catalogue -/

theorem seqScan_nil (seqTokens : List Token) (done : Nat) :
    ∀ l, seqScan seqTokens [] [] done l = ([], [], done) := by
  intro l
  cases l with
  | nil => rfl
  | cons t rest => simp [seqScan]

/-- With an empty openings list `analyzeBySequence` reports no opening and an
empty path, and its only possible error is the no-moves one. -/
theorem analyzeBySequence_empty (cat : Catalogue) (h : cat.openings = [])
    (pgnText : String) (maxPlies : Nat) :
    (analyzeBySequence cat pgnText maxPlies).opening = none ∧
    (analyzeBySequence cat pgnText maxPlies).opening_path = [] := by
  simp only [analyzeBySequence, h, List.filter_nil, seqScan_nil]
  split
  · exact ⟨rfl, rfl⟩
  · simp

theorem analyzeBySequence_error_none (cat : Catalogue) (pgnText : String)
    (maxPlies : Nat) (h : ¬(tokenizePgnMoves pgnText).isEmpty) :
    (analyzeBySequence cat pgnText maxPlies).error = none := by
  simp only [analyzeBySequence]
  split
  · simp_all
  · split <;> first | rfl | (split <;> rfl)

theorem indexGet_nil (c : Fen) : indexGet [] c = [] := rfl

theorem bestEntryForFen_emptyIndex (cat : Catalogue) (h : cat.fenIndex = [])
    (canon : Fen) (played whole : List Token) (opts : BestOpts) :
    bestEntryForFen cat canon played whole opts = none := by
  unfold bestEntryForFen
  rw [h]
  rfl

theorem findAnchor_emptyIndex (cat : Catalogue) (h : cat.fenIndex = [])
    (whole : List Token) (bopts : BestOpts) :
    ∀ l, findAnchor cat whole bopts l = none := by
  intro l
  induction l with
  | nil => rfl
  | cons rec rest ih =>
    unfold findAnchor
    rw [h]
    simpa using ih

/-- In the default mode (`requireFenOnly = false`) `analyzeByFen` returns an
error only when no tokens parse at all; a game that replays partially (or not
at all) is classified, never surfaced as an error. -/
theorem analyzeByFen_error_none (lib : ChessLib) (cat : Catalogue)
    (pgnText : String) (maxPlies : Nat) (opts : AnalyzeOpts)
    (h : ¬(tokenizePgnMoves pgnText).isEmpty) :
    (analyzeByFen lib cat pgnText maxPlies false opts).error = none := by
  simp only [analyzeByFen]
  split
  · simp_all
  · split
    · exact analyzeBySequence_error_none cat pgnText maxPlies h
    · split
      · rfl
      · exact analyzeBySequence_error_none cat pgnText maxPlies h

/-- Against an empty catalogue (the result of a failed load) every
classification call reports no opening and an empty path, whatever the
options and the input. -/
theorem analyzeByFen_noMatch_of_emptyCat (lib : ChessLib) (cat : Catalogue)
    (h1 : cat.openings = []) (h2 : cat.fenIndex = []) (pgnText : String)
    (maxPlies : Nat) (rfo : Bool) (opts : AnalyzeOpts) :
    (analyzeByFen lib cat pgnText maxPlies rfo opts).opening = none ∧
    (analyzeByFen lib cat pgnText maxPlies rfo opts).opening_path = [] := by
  simp only [analyzeByFen]
  split
  · exact ⟨rfl, rfl⟩
  · split
    · split
      · exact ⟨rfl, rfl⟩
      · exact analyzeBySequence_empty cat h1 pgnText maxPlies
    · split
      · next rec choice heq =>
        rw [findAnchor_emptyIndex cat h2] at heq
        exact absurd heq (by simp)
      · split
        · exact ⟨rfl, rfl⟩
        · exact analyzeBySequence_empty cat h1 pgnText maxPlies

/-- Whenever at least one ply replays, the per-ply progressive report of
`analyzeByFen` is exactly one classification per replayed record, whatever
branch produces the final result. -/
theorem analyzeByFen_per_ply (lib : ChessLib) (cat : Catalogue)
    (pgnText : String) (maxPlies : Nat) (rfo : Bool) (opts : AnalyzeOpts)
    (h : ¬(tokenizePgnMoves pgnText).isEmpty)
    (h2 : ¬(replayRecords lib (tokenizePgnMoves pgnText) maxPlies).isEmpty) :
    (analyzeByFen lib cat pgnText maxPlies rfo opts).per_ply =
      (replayRecords lib (tokenizePgnMoves pgnText) maxPlies).map
        (buildPerPly cat (tokenizePgnMoves pgnText)
          (((replayRecords lib (tokenizePgnMoves pgnText) maxPlies).map
              (·.san)).filter (fun s => !(s == "")))
          { preferSetMatch := opts.prefer_set_matches,
            setThreshold := some (opts.orderless_threshold.getD 1) }) := by
  simp only [analyzeByFen]
  split
  · simp_all
  · split
    · simp_all
    · split <;> (try split) <;> rfl

/-- Every scored candidate — hence anything `bestEntryForFen` can return —
carries the token list of its own entry and survived the prefix check:
its tokens agree with the played prefix on every shared index. -/
theorem scoredList_no_mismatch (cat : Catalogue) (canon : Fen)
    (played whole : List Token) (opts : BestOpts) (res : Scored)
    (hmem : res ∈ scoredList cat canon played whole opts) :
    res.entTokens = movesTokensFromNorm res.ent._moves_norm ∧
    (res.entTokens.zip played).all (fun p => p.1 == p.2) = true := by
  obtain ⟨ref, _, hsc⟩ := List.mem_filterMap.mp hmem
  unfold scoreCandidate at hsc
  simp only at hsc
  split at hsc
  · exact absurd hsc (by simp)
  · next hnomis =>
    cases hsc
    refine ⟨rfl, ?_⟩
    simp only [Bool.not_eq_true] at hnomis
    rw [List.any_eq_false] at hnomis
    rw [List.all_eq_true]
    intro p hp
    have := hnomis p hp
    simpa using this

/-! ## Pattern Override

Modelled from the spec: the repository sources under `src/` contain no
Pattern Override implementation — §4.6 of the specification describes the
heuristic (a diagnostic bishop development within the first 16 plies of
White's moves, without a disqualifying earlier pawn push, with supporting
pawn moves, naming a well-known system) but no such code exists in
`eco_fen_bot.js` or the other source file.  The definitions below follow
the specification's words. -/

/-- Modelled from the spec: the data of the pattern heuristic — the
diagnostic bishop move, the disqualifying pawn push, the supporting pawn
moves, the named system's label and the inspection window (default 16
plies). -/
structure PatternSpec where
  diagnosticBishopMove : Token
  disqualifyingPawnPush : Token
  supportingPawnMoves : List Token
  label : String
  windowPlies : Nat
deriving Repr, DecidableEq

/-- Modelled from the spec: the detector inspects White's moves among the
first `windowPlies` plies; the diagnostic bishop development must occur, the
disqualifying pawn push must not occur among White's earlier moves, and a
supporting pawn move must appear in the window. -/
def detectPattern (ps : PatternSpec) (tokens : List Token) : Bool :=
  let whiteMoves := ((tokens.take ps.windowPlies).enum.filterMap
    (fun p => if p.1 % 2 = 0 then some p.2 else none))
  match whiteMoves.findIdx? (· == ps.diagnosticBishopMove) with
  | none => false
  | some i =>
    (whiteMoves.take i).all (fun t => !(t == ps.disqualifyingPawnPush)) &&
      ps.supportingPawnMoves.any (fun m => whiteMoves.contains m)

/-- Contiguous-substring test on character lists. -/
def listIsInfix (pat : List Char) : List Char → Bool
  | [] => pat.isEmpty
  | c :: rest => pat.isPrefixOf (c :: rest) || listIsInfix pat rest

/-- Modelled from the spec: whether an entry's declared name textually
mentions the named system. -/
def mentionsSystem (ps : PatternSpec) (ent : OpeningEntry) : Bool :=
  listIsInfix ps.label.data (entRawName ent).data

/-- Modelled from the spec: the lowest game ply whose canonical key the
entry also reaches (through its replayed ply map or its declared
position). -/
def sharesKeyAt (ent : OpeningEntry) (gameFens : List Fen) : Option Nat :=
  (gameFens.enum.filterMap (fun p =>
    if (ent._fen_to_ply.lookup p.2).isSome || ent._fen == some p.2 then
      some (p.1 + 1)
    else none)).head?

/-- Modelled from the spec: the catalogue search of the override — entries
mentioning the named system that share a canonical key with the game, the
earliest (lowest-ply) match preferred. -/
def patternCatalogueHit (ps : PatternSpec) (cat : Catalogue)
    (gameFens : List Fen) : Option (OpeningEntry × Nat) :=
  (cat.openings.filterMap (fun e =>
    if mentionsSystem ps e then (sharesKeyAt e gameFens).map (fun p => (e, p))
    else none)).foldl (fun best c =>
      match best with
      | none => some c
      | some b => if c.2 < b.2 then some c else some b) none

/-- Modelled from the spec: when the pattern is detected, a catalogue hit
supplies the path; with no catalogue hit the override synthesizes one by
prepending the named system's label to the sequence-fallback path, keeping
the rest of that path. -/
def patternOverridePath (ps : PatternSpec) (cat : Catalogue)
    (tokens : List Token) (gameFens : List Fen)
    (fallbackPath : List String) : List String :=
  if detectPattern ps tokens then
    match patternCatalogueHit ps cat gameFens with
    | some hit => buildOpeningPathFromRaw (entRawName hit.1) (jsHeadOrNull tokens)
    | none => ps.label :: fallbackPath
  else fallbackPath

/-! ## Concrete instances used by the claim theorems -/

/-- A finite-table chess oracle over small concrete games.  Histories not in
the tables yield `""`/failure; the tables below are chosen consistently with
real chess (in particular `canonFen` is a function of the move history, and
transposed histories reaching the same position receive the same key). -/
def tableLib (sanTab : List (List Token × Token))
    (coordTab : List (List Token × String × String))
    (fenTab : List (List Token × Fen)) : ChessLib :=
  { sanOk := fun h t => sanTab.contains (h, t),
    coordOk := fun h f t p => p.isNone && coordTab.contains (h, f, t),
    canonFen := fun h => (fenTab.lookup h).getD "",
    loadFen := fun _ => none }

/-- A raw catalogue record with only the fields the instances need. -/
def mkRec (name moves fen : Option String) : RawRecord :=
  { name := name, opening := none, eco := none, moves := moves, fen := fen,
    position := none, FEN := none }

def optsDefault : AnalyzeOpts :=
  { orderless_matching := false, orderless_threshold := none,
    prefer_set_matches := false }

/-- Oracle for the game `1. d4 d5 2. c4`. -/
def libC6 : ChessLib := tableLib
  [([], "d4"), (["d4"], "d5"), (["d4", "d5"], "c4")] []
  [(["d4"], "F1"), (["d4", "d5"], "F2"), (["d4", "d5", "c4"], "F3")]

/-- The empty catalogue produced by a failed load. -/
def catEmpty : Catalogue := loadOpeningsFromEco libC6 none

/-- Oracle for the transposition scenario: `1. Nf3 Nf6 2. Nc3` in algebraic
notation and the same two first moves in coordinate notation reach the same
positions (`K1`, `K2`); ply 3 reaches the position declared by entry
`A-line`. -/
def libC3 : ChessLib := tableLib
  [([], "Nf3"), (["Nf3"], "Nf6"), (["Nf3", "Nf6"], "Nc3")]
  [([], "g1", "f3"), (["g1f3"], "g8", "f6")]
  [(["Nf3"], "K1"), (["Nf3", "Nf6"], "K2"),
   (["Nf3", "Nf6", "Nc3"], "K3a K3b K3c K3d"),
   (["g1f3"], "K1"), (["g1f3", "g8f6"], "K2")]

/-- Catalogue for the transposition scenario: `A-line` declares the ply-3
position directly and replays only `Nf3`; `C-line` writes its two moves in
coordinate notation, so its token list disagrees with the played algebraic
prefix while reaching the same canonical keys. -/
def catC3 : Catalogue := loadOpeningsFromEco libC3 (some
  [(none, mkRec (some "A-line") (some "Nf3") (some "K3a K3b K3c K3d")),
   (none, mkRec (some "C-line") (some "g1f3 g8f6") none)])

/-- Oracle for the `1. e4 e5 ...` line used by the scoring claims. -/
def libC4 : ChessLib := tableLib
  [([], "e4"), (["e4"], "e5"), (["e4", "e5"], "Nf3"),
   (["e4", "e5", "Nf3"], "Nc6"), (["e4", "e5", "Nf3", "Nc6"], "Bb5")] []
  [(["e4"], "P1"), (["e4", "e5"], "P2"), (["e4", "e5", "Nf3"], "P3"),
   (["e4", "e5", "Nf3", "Nc6"], "P4"), (["e4", "e5", "Nf3", "Nc6", "Bb5"], "P5")]

/-- Catalogue with a specific five-token entry and a short generic one; both
reach the key after `1. e4`. -/
def catC4 : Catalogue := loadOpeningsFromEco libC4 (some
  [(none, mkRec (some "Giuoco Piano, Main Line, Deep")
      (some "e4 e5 Nf3 Nc6 Bb5") none),
   (none, mkRec (some "Open Game") (some "e4 e5") none)])

/-- A 20-token game containing every token of both `catC4` entries. -/
def whole20 : List Token :=
  ["e4", "e5", "Nf3", "Nc6", "Bb5", "a6", "Ba4", "Nf6", "O-O", "Be7",
   "Re1", "b5", "Bb3", "d6", "c3", "O-O", "h3", "Nb8", "d4", "Nbd7"]

def bestOptsPrefer : BestOpts := { preferSetMatch := true, setThreshold := some 1 }

def bestOptsPlain : BestOpts := { preferSetMatch := false, setThreshold := some 1 }

/-- An oracle on which nothing replays. -/
def libW : ChessLib := tableLib [] [] []

/-- A catalogue whose single entry has an unreplayable move text. -/
def catW : Catalogue := loadOpeningsFromEco libW (some
  [(none, mkRec (some "Weird Gambit") (some "zz1 zz2") none)])

/-- A default scored record (for total head/getD extraction in witnesses). -/
def scoredDefault : Scored :=
  { key := [], entId := 0, ent := mkOpeningEntry libW none (mkRec none none none),
    entPly := none, rawName := "", entTokens := [], setMatched := 0 }

/-- The candidate `bestEntryForFen` picks at the ply-2 key of `catC4`. -/
def c1Res : Scored :=
  (bestEntryForFen catC4 "P2" ["e4", "e5"] whole20 bestOptsPlain).getD scoredDefault

/-- The candidate picked at the ply-1 key of `catC4` in prefer-set mode. -/
def c2Res : Scored :=
  (bestEntryForFen catC4 "P1" ["e4"] whole20 bestOptsPrefer).getD scoredDefault

/-- The first scored candidate at that key (the five-token entry). -/
def c2Other : Scored :=
  (scoredList catC4 "P1" ["e4"] whole20 bestOptsPrefer).headD scoredDefault

/-- An instantiation of the spec's pattern data (a London-like system:
`Bf4` without an earlier `c4`, supported by `d4`/`e3`, 16-ply window). -/
def psLondon : PatternSpec :=
  { diagnosticBishopMove := "Bf4", disqualifyingPawnPush := "c4",
    supportingPawnMoves := ["d4", "e3"], label := "London System",
    windowPlies := 16 }

/-! ## Helper lemmas for the claim theorems -/

theorem cmpKey_cons_lt (a b : Int) (l1 l2 : List Int) (h : a < b) :
    cmpKey (a :: l1) (b :: l2) = .lt := by
  unfold cmpKey
  simp only [List.length_cons, Nat.succ_max_succ]
  unfold cmpKeyFrom
  have ha : keyD (a :: l1) 0 = a := rfl
  have hb : keyD (b :: l2) 0 = b := rfl
  rw [ha, hb, if_pos h]

/-- In prefer-set-match mode every scored candidate's key starts with its
set-match flag, which is 0 or 1. -/
theorem scoredList_key_prefer (cat : Catalogue) (canon : Fen)
    (played whole : List Token) (st : Option Rat) (c : Scored)
    (hmem : c ∈ scoredList cat canon played whole
      { preferSetMatch := true, setThreshold := st }) :
    (∃ r, c.key = c.setMatched :: r) ∧ (c.setMatched = 0 ∨ c.setMatched = 1) := by
  obtain ⟨ref, _, hsc⟩ := List.mem_filterMap.mp hmem
  unfold scoreCandidate at hsc
  simp only at hsc
  split at hsc
  · exact absurd hsc (by simp)
  · cases hsc
    refine ⟨⟨_, rfl⟩, ?_⟩
    simp only
    split
    · exact Or.inr rfl
    · exact Or.inl rfl

theorem foldl_pushUnique_nodup (l : List String) :
    ∀ acc : List String, acc.Nodup → (l.foldl pushUnique acc).Nodup := by
  induction l with
  | nil => intro acc h; exact h
  | cons a l ih =>
    intro acc h
    apply ih
    unfold pushUnique
    split
    · next hcond =>
      obtain ⟨-, h2⟩ := Bool.and_eq_true_iff.mp hcond
      have hnm : a ∉ acc := by
        simp only [Bool.not_eq_true'] at h2
        intro hmem
        simp at h2
        exact h2 hmem
      rw [← List.concat_eq_append]
      exact h.concat hnm
    · exact h

/-! ## The claims -/

/-- C1: for every canonical key, played prefix and whole-game token set, the
Candidate Scorer (`bestEntryForFen`) never returns an entry whose own token
list disagrees with the played prefix at an index where both have a token —
whatever the options, so in particular when orderless matching is not
enabled; canonical-key coincidence alone never suffices.  The returned
record's `entTokens` are exactly the tokens of the returned entry, and they
agree with the played prefix on every shared index. -/
theorem claim_C1_transposition_rejection (cat : Catalogue) (canon : Fen)
    (played whole : List Token) (opts : BestOpts) (res : Scored)
    (h : bestEntryForFen cat canon played whole opts = some res) :
    res.entTokens = movesTokensFromNorm res.ent._moves_norm ∧
    ∀ i (h1 : i < res.entTokens.length) (h2 : i < played.length),
      res.entTokens.get ⟨i, h1⟩ = played.get ⟨i, h2⟩ := by
  obtain ⟨hmem, -⟩ := bestEntryForFen_max cat canon played whole opts res h
  obtain ⟨ht, hall⟩ := scoredList_no_mismatch cat canon played whole opts res hmem
  refine ⟨ht, ?_⟩
  intro i h1 h2
  rw [List.all_eq_true] at hall
  have hzl : i < (res.entTokens.zip played).length := by
    rw [List.length_zip]
    omega
  have hmemz : (res.entTokens.get ⟨i, h1⟩, played.get ⟨i, h2⟩) ∈
      res.entTokens.zip played := by
    have hg : (res.entTokens.zip played).get ⟨i, hzl⟩ =
        (res.entTokens.get ⟨i, h1⟩, played.get ⟨i, h2⟩) := by
      simp [List.get_eq_getElem, List.getElem_zip]
    rw [← hg]
    exact List.get_mem _ _ hzl
  have := hall _ hmemz
  simpa using this

/-- C1 witness: at the ply-2 key of the concrete catalogue the scorer picks
the `Open Game` entry, whose tokens are the entry's own and agree with the
played prefix at index 0. -/
theorem claim_C1_witness :
    c1Res.entTokens = movesTokensFromNorm c1Res.ent._moves_norm ∧
    c1Res.entTokens.get ⟨0, by decide⟩ =
      (["e4", "e5"] : List Token).get ⟨0, by decide⟩ :=
  ⟨(claim_C1_transposition_rejection catC4 "P2" ["e4", "e5"] whole20
      bestOptsPlain c1Res (by decide)).1,
   (claim_C1_transposition_rejection catC4 "P2" ["e4", "e5"] whole20
      bestOptsPlain c1Res (by decide)).2 0 (by decide) (by decide)⟩

/-- C2: the candidate `bestEntryForFen` returns is maximal among the scored
survivors under the descending lexicographic comparison of criteria keys
(first differing criterion decides), and the key tuples are exactly
(same-ply, reaches-key, common-prefix-length, fully-matched, negative
move-count, specificity, set-match) in the default mode and the same tuple
with set-match promoted to the first position in prefer-set-matches mode. -/
theorem claim_C2_lexicographic_ranking (cat : Catalogue) (canon : Fen)
    (played whole : List Token) (opts : BestOpts) (res : Scored)
    (h : bestEntryForFen cat canon played whole opts = some res) :
    (res ∈ scoredList cat canon played whole opts ∧
      ∀ c ∈ scoredList cat canon played whole opts,
        cmpKey res.key c.key ≠ Ordering.lt) ∧
    (∀ setMatched samePly reachesCanon commonLen fullyMatched movesLen
        spec : Int,
      scoreKey false setMatched samePly reachesCanon commonLen fullyMatched
          movesLen spec =
        [samePly, reachesCanon, commonLen, fullyMatched, -movesLen, spec,
          setMatched] ∧
      scoreKey true setMatched samePly reachesCanon commonLen fullyMatched
          movesLen spec =
        [setMatched, samePly, reachesCanon, commonLen, fullyMatched, -movesLen,
          spec]) := by
  obtain ⟨hmem, hmax⟩ := bestEntryForFen_max cat canon played whole opts res h
  exact ⟨⟨hmem, fun c hc => (scoredLe_iff res c).mp (hmax c hc)⟩,
    fun _ _ _ _ _ _ _ => ⟨rfl, rfl⟩⟩

/-- C2 witness: the winner at the concrete ply-1 key in prefer-set mode is
not ranked below the five-token candidate. -/
theorem claim_C2_witness : cmpKey c2Res.key c2Other.key ≠ Ordering.lt :=
  ((claim_C2_lexicographic_ranking catC4 "P1" ["e4"] whole20 bestOptsPrefer
      c2Res (by decide)).1).2 c2Other (by decide)

/-- C3: on the concrete transposition game `1. Nf3 Nf6 2. Nc3`, the ply-2
canonical key `K2` has an indexed entry (`C-line`, declared in coordinate
notation `g1f3 g8f6`) yet `bestEntryForFen` returns no candidate there; the
walk-up nevertheless adds that first indexed entry's name to the merged
opening path and to the per-level detail although its declared move order
differs from the played moves at index 0. -/
theorem claim_C3_walkup_unchecked_fallback :
    (analyzeByFen libC3 catC3 "1. Nf3 Nf6 2. Nc3" 9999 false
        optsDefault).opening_path = ["A-line", "Reti Opening", "C-line"] ∧
    (analyzeByFen libC3 catC3 "1. Nf3 Nf6 2. Nc3" 9999 false
        optsDefault).per_level.map (fun l => (l.ply, l.chosen_raw)) =
      [(3, some "A-line"), (2, some "C-line"), (1, some "A-line")] ∧
    bestEntryForFen catC3 "K2" ["Nf3", "Nf6"] ["Nf3", "Nf6", "Nc3"]
      bestOptsPlain = none ∧
    (indexGet catC3.fenIndex "K2").map
      (fun r => (entRawName r.ent, movesTokensFromNorm r.ent._moves_norm)) =
      [("C-line", ["g1f3", "g8f6"])] ∧
    (replayRecords libC3 (tokenizePgnMoves "1. Nf3 Nf6 2. Nc3") 9999).map
      (fun r => (r.fen, r.played_tokens)) =
      [("K1", ["Nf3"]), ("K2", ["Nf3", "Nf6"]),
        ("K3a K3b K3c K3d", ["Nf3", "Nf6", "Nc3"])] ∧
    (("g1f3" : Token) = "Nf3") = False := by
  refine ⟨by decide, by decide, by decide, by decide, by decide, by decide⟩

/-- C4 counterexample: in the 20-token game every token of the five-token
entry `Giuoco Piano, Main Line, Deep` occurs, the entry is flagged
set-matched at threshold 1 and survives at the ply-1 key, yet with
`preferSetMatches` enabled `bestEntryForFen` ranks the strict-order match
`Open Game` — of strictly lower specificity, but itself set-matched and
shorter — above it and returns `Open Game`, contradicting the claim that the
set-matched entry is ranked above a strict-order match of lower
specificity. -/
theorem claim_C4_counterexample :
    entryMatchesBySetFraction ["e4", "e5", "Nf3", "Nc6", "Bb5"] whole20 1 =
      true ∧
    whole20.length = 20 ∧
    specificityScore "Open Game" < specificityScore
      "Giuoco Piano, Main Line, Deep" ∧
    (scoredList catC4 "P1" ["e4"] whole20 bestOptsPrefer).map
      (fun r => (r.rawName, r.setMatched)) =
      [("Giuoco Piano, Main Line, Deep", 1), ("Open Game", 1)] ∧
    (bestEntryForFen catC4 "P1" ["e4"] whole20 bestOptsPrefer).map
      (fun r => r.rawName) = some "Open Game" := by
  refine ⟨by decide, by decide, by decide, by decide, by decide⟩

/-- C4 (amended): an entry all of whose tokens occur in the (non-empty)
played game is flagged set-matched at any threshold up to 1.0; with
`preferSetMatches` the selected candidate is itself set-matched whenever any
surviving candidate is — but a strict-order match whose own tokens all occur
in the game is also set-matched, and later criteria (such as the shorter
move list) can rank it above a set-matched entry of higher specificity. -/
theorem claim_C4_amended (entTokens played : List Token) (thr : Rat)
    (h1 : entTokens ≠ []) (h2 : played ≠ [])
    (h3 : ∀ t ∈ entTokens, t ∈ played) (h4 : thr ≤ 1) :
    entryMatchesBySetFraction entTokens played thr = true ∧
    ∀ (cat : Catalogue) (canon : Fen) (p w : List Token) (st : Option Rat)
      (res : Scored),
      bestEntryForFen cat canon p w
        { preferSetMatch := true, setThreshold := st } = some res →
      (∃ c ∈ scoredList cat canon p w
        { preferSetMatch := true, setThreshold := st }, c.setMatched = 1) →
      res.setMatched = 1 := by
  constructor
  · rw [entryMatchesBySetFraction_eq_div]
    have hfd : entTokens.filter (fun t => played.contains t) = entTokens := by
      rw [List.filter_eq_self]
      intro a ha
      simpa using h3 a ha
    rw [hfd]
    have hlen : 0 < entTokens.length := List.length_pos.mpr h1
    have hone : ((entTokens.length : Rat)) / ((entTokens.length : Rat)) = 1 :=
      div_self (by exact_mod_cast Nat.pos_iff_ne_zero.mp hlen)
    rw [hone]
    simp [h1, h2, h4]
  · rintro cat canon p w st res hbest ⟨c, hc, hcm⟩
    obtain ⟨hmem, hmax⟩ := bestEntryForFen_max cat canon p w
      { preferSetMatch := true, setThreshold := st } res hbest
    have h5 := (scoredLe_iff res c).mp (hmax c hc)
    obtain ⟨⟨r1, hk1⟩, hsm⟩ := scoredList_key_prefer cat canon p w st res hmem
    obtain ⟨⟨r2, hk2⟩, -⟩ := scoredList_key_prefer cat canon p w st c hc
    rcases hsm with h0 | hgood
    · exfalso
      apply h5
      rw [hk1, hk2, hcm, h0]
      exact cmpKey_cons_lt 0 1 _ _ (by norm_num)
    · exact hgood

/-- C4 witness: the five-token entry over the 20-token game at threshold 1,
and the prefer-set selection of a set-matched candidate at the concrete
ply-1 key. -/
theorem claim_C4_witness :
    entryMatchesBySetFraction ["e4", "e5", "Nf3", "Nc6", "Bb5"] whole20 1 =
      true ∧ c2Res.setMatched = 1 :=
  ⟨(claim_C4_amended ["e4", "e5", "Nf3", "Nc6", "Bb5"] whole20 1 (by decide)
      (by decide) (by decide) (by decide)).1,
   (claim_C4_amended ["e4", "e5", "Nf3", "Nc6", "Bb5"] whole20 1 (by decide)
      (by decide) (by decide) (by decide)).2 catC4 "P1" ["e4"] whole20
      (some 1) c2Res (by decide) ⟨c2Other, by decide, by decide⟩⟩

/-- C5 counterexample: on `1. zz1 zz2` (no token replays; the successfully
replayed prefix is empty) the default-mode classification still names the
catalogue entry `Weird Gambit`, matched purely on the tokenized move text —
classification did not proceed on the successfully replayed prefix of ply
records. -/
theorem claim_C5_counterexample :
    tokenizePgnMoves "1. zz1 zz2" = ["zz1", "zz2"] ∧
    replayRecords libW (tokenizePgnMoves "1. zz1 zz2") 9999 = [] ∧
    (analyzeByFen libW catW "1. zz1 zz2" 9999 false optsDefault).opening =
      some { eco := none, name := some "Weird Gambit" } ∧
    (analyzeByFen libW catW "1. zz1 zz2" 9999 false optsDefault).error =
      none := by
  refine ⟨by decide, by decide, by decide, by decide⟩

/-- C5 (amended): replay applies tokens in order and stops exactly at the
first token that neither parses as a (sloppy) algebraic move nor as a legal
coordinate move, discarding the rest from the replay; the position-based
classification (the per-ply progressive report) covers exactly the
successfully replayed prefix of ply records; and in the default mode no
partial game is surfaced as an error.  (The sequence fallback, reached when
no canonical-key anchor exists, classifies the full tokenized move list,
which may include tokens at or after the replay failure — see the
counterexample.) -/
theorem claim_C5_amended (lib : ChessLib) (cat : Catalogue) (pgnText : String)
    (maxPlies : Nat) (opts : AnalyzeOpts)
    (h : ¬(tokenizePgnMoves pgnText).isEmpty)
    (h2 : ¬(replayRecords lib (tokenizePgnMoves pgnText) maxPlies).isEmpty) :
    (∀ i, i < (replayRecords lib (tokenizePgnMoves pgnText) maxPlies).length →
      ((replayRecords lib (tokenizePgnMoves pgnText) maxPlies).get? i).map
          (·.san) = (tokenizePgnMoves pgnText).get? i ∧
      ((replayRecords lib (tokenizePgnMoves pgnText) maxPlies).get? i).map
          (·.played_tokens) = some ((tokenizePgnMoves pgnText).take (i + 1)) ∧
      tryMoveStep lib ((tokenizePgnMoves pgnText).take i)
        ((tokenizePgnMoves pgnText).getD i "") = true) ∧
    ((replayRecords lib (tokenizePgnMoves pgnText) maxPlies).length <
        min (tokenizePgnMoves pgnText).length maxPlies →
      tryMoveStep lib
        ((tokenizePgnMoves pgnText).take
          (replayRecords lib (tokenizePgnMoves pgnText) maxPlies).length)
        ((tokenizePgnMoves pgnText).getD
          (replayRecords lib (tokenizePgnMoves pgnText) maxPlies).length "") =
        false) ∧
    (analyzeByFen lib cat pgnText maxPlies false opts).per_ply =
      (replayRecords lib (tokenizePgnMoves pgnText) maxPlies).map
        (buildPerPly cat (tokenizePgnMoves pgnText)
          (((replayRecords lib (tokenizePgnMoves pgnText) maxPlies).map
              (·.san)).filter (fun s => !(s == "")))
          { preferSetMatch := opts.prefer_set_matches,
            setThreshold := some (opts.orderless_threshold.getD 1) }) ∧
    (analyzeByFen lib cat pgnText maxPlies false opts).error = none := by
  obtain ⟨p1, -, p3⟩ := replayRecords_props lib (tokenizePgnMoves pgnText)
    maxPlies
  exact ⟨p1, p3, analyzeByFen_per_ply lib cat pgnText maxPlies false opts h h2,
    analyzeByFen_error_none lib cat pgnText maxPlies opts h⟩

/-- C5 witness: on the concrete `1. d4 d5 2. c4` game the per-ply report has
one entry per replayed record and no error is reported. -/
theorem claim_C5_witness :
    (analyzeByFen libC6 catEmpty "1. d4 d5 2. c4" 9999 false
        optsDefault).error = none ∧
    (analyzeByFen libC6 catEmpty "1. d4 d5 2. c4" 9999 false
        optsDefault).per_ply.length =
      (replayRecords libC6 (tokenizePgnMoves "1. d4 d5 2. c4") 9999).length := by
  have h := claim_C5_amended libC6 catEmpty "1. d4 d5 2. c4" 9999 optsDefault
    (by decide) (by decide)
  refine ⟨h.2.2.2, ?_⟩
  rw [h.2.2.1]
  simp

/-- C6 counterexample: with the empty catalogue the input `1. d4 d5 2. c4`
does give ply 1 an opening name — the hardcoded popular-first-move label
`Queen's Pawn Game` — so it is false that no ply receives a name. -/
theorem claim_C6_counterexample :
    (analyzeByFen libC6 catEmpty "1. d4 d5 2. c4" 9999 false
        optsDefault).per_ply.map (fun p => p.opening) =
      [some "Queen\x27s Pawn Game", none, none] := by
  decide

/-- C6 (amended): with the empty catalogue, classifying `1. d4 d5 2. c4`
returns no error and no top-level opening; plies 2 and 3 of the per-ply
progression receive no opening name, while ply 1 receives the hardcoded
popular-first-move label `Queen's Pawn Game` rather than a catalogue
match. -/
theorem claim_C6_amended :
    catEmpty.openings = [] ∧ catEmpty.fenIndex = [] ∧
    (analyzeByFen libC6 catEmpty "1. d4 d5 2. c4" 9999 false
        optsDefault).error = none ∧
    (analyzeByFen libC6 catEmpty "1. d4 d5 2. c4" 9999 false
        optsDefault).opening = none ∧
    (analyzeByFen libC6 catEmpty "1. d4 d5 2. c4" 9999 false
        optsDefault).opening_path = [] ∧
    (analyzeByFen libC6 catEmpty "1. d4 d5 2. c4" 9999 false
        optsDefault).per_ply.map (fun p => (p.ply, p.opening)) =
      [(1, some "Queen\x27s Pawn Game"), (2, none), (3, none)] ∧
    popularLookup "d4" = some ["Queen\x27s Pawn Game", "Queen\x27s Gambit",
      "Indian Defense"] := by
  refine ⟨by decide, by decide, by decide, by decide, by decide, by decide,
    by decide⟩

/-- C7 (spec-modelled): when the diagnostic pattern is detected in the early
window and no catalogue entry mentioning the named system shares a canonical
key with the game, the override prepends the named system's label to the
path the sequence fallback otherwise produced and keeps the rest of that
path. -/
theorem claim_C7_pattern_override (ps : PatternSpec) (cat : Catalogue)
    (tokens : List Token) (gameFens : List Fen) (fallbackPath : List String)
    (hdet : detectPattern ps tokens = true)
    (hmiss : ∀ e ∈ cat.openings, mentionsSystem ps e = true →
      sharesKeyAt e gameFens = none) :
    patternOverridePath ps cat tokens gameFens fallbackPath =
      ps.label :: fallbackPath := by
  have hnil : cat.openings.filterMap (fun e =>
      if mentionsSystem ps e then (sharesKeyAt e gameFens).map (fun p => (e, p))
      else none) = [] := by
    rw [List.filterMap_eq_nil]
    intro e he
    by_cases hm : mentionsSystem ps e
    · simp [hm, hmiss e he hm]
    · simp [hm]
  have hnone : patternCatalogueHit ps cat gameFens = none := by
    unfold patternCatalogueHit
    rw [hnil]
    rfl
  unfold patternOverridePath
  rw [hdet, hnone]
  rfl

/-- C7 witness: a London-like pattern in `d4 d5 Bf4 Nf6 e3` with an empty
catalogue prepends the system label to the fallback path. -/
theorem claim_C7_witness :
    patternOverridePath psLondon catEmpty ["d4", "d5", "Bf4", "Nf6", "e3"]
        ["F1", "F2"] ["Queen\x27s Pawn Game"] =
      "London System" :: ["Queen\x27s Pawn Game"] :=
  claim_C7_pattern_override psLondon catEmpty ["d4", "d5", "Bf4", "Nf6", "e3"]
    ["F1", "F2"] ["Queen\x27s Pawn Game"] (by decide) (by decide)

/-- C8: a missing or unparsable catalogue source (`none` handed to the
loader) degrades to an empty openings list and an empty position index (the
source also logs a warning), and every subsequent classification call
against that empty catalogue — any input, ply limit, mode and options —
returns a no-match result (no opening, empty path) rather than failing. -/
theorem claim_C8_load_failure_degrades (lib lib2 : ChessLib)
    (pgnText : String) (maxPlies : Nat) (rfo : Bool) (opts : AnalyzeOpts) :
    loadOpeningsFromEco lib none = { openings := [], fenIndex := [] } ∧
    (analyzeByFen lib2 (loadOpeningsFromEco lib none) pgnText maxPlies rfo
        opts).opening = none ∧
    (analyzeByFen lib2 (loadOpeningsFromEco lib none) pgnText maxPlies rfo
        opts).opening_path = [] := by
  refine ⟨rfl, ?_, ?_⟩
  · exact (analyzeByFen_noMatch_of_emptyCat lib2 (loadOpeningsFromEco lib none)
      rfl rfl pgnText maxPlies rfo opts).1
  · exact (analyzeByFen_noMatch_of_emptyCat lib2 (loadOpeningsFromEco lib none)
      rfl rfl pgnText maxPlies rfo opts).2

/-- C9: the Path Builder is pure and idempotent — two invocations on the
same raw name and first token are the same expression and yield the same
order-stable fragment list, and no fragment occurs more than once in the
returned path. -/
theorem claim_C9_path_builder_pure_nodup (rawName : String)
    (firstToken : Option String) :
    buildOpeningPathFromRaw rawName firstToken =
      buildOpeningPathFromRaw rawName firstToken ∧
    (buildOpeningPathFromRaw rawName firstToken).Nodup := by
  refine ⟨rfl, ?_⟩
  simp only [buildOpeningPathFromRaw]
  exact foldl_pushUnique_nodup _ [] List.nodup_nil

/-- C10: two runs of `analyzeByFen` that differ only in the
`orderless_matching` flag produce identical results — the flag is carried in
the options object but never read, so only `orderless_threshold` and
`prefer_set_matches` influence the classification output. -/
theorem claim_C10_orderless_flag_ignored (lib : ChessLib) (cat : Catalogue)
    (pgnText : String) (maxPlies : Nat) (rfo : Bool) (o1 o2 : AnalyzeOpts)
    (ht : o1.orderless_threshold = o2.orderless_threshold)
    (hp : o1.prefer_set_matches = o2.prefer_set_matches) :
    analyzeByFen lib cat pgnText maxPlies rfo o1 =
      analyzeByFen lib cat pgnText maxPlies rfo o2 := by
  cases o1
  cases o2
  simp only at ht hp
  subst ht
  subst hp
  rfl

/-- C10 witness: flipping only `orderless_matching` on a concrete run leaves
the result unchanged. -/
theorem claim_C10_witness :
    analyzeByFen libC6 catEmpty "1. d4 d5 2. c4" 9999 false
        { orderless_matching := true, orderless_threshold := none,
          prefer_set_matches := false } =
      analyzeByFen libC6 catEmpty "1. d4 d5 2. c4" 9999 false optsDefault :=
  claim_C10_orderless_flag_ignored libC6 catEmpty "1. d4 d5 2. c4" 9999 false
    _ _ rfl rfl

end EcoFenBot
